import Mathlib

/-!
AVR-Switchkeys: multi-tap keypad and anagram matcher (`main.c`)

A shallow embedding of `main.c`.  Bytes (`char`, `unsigned char`) are natural
numbers (character codes), a C string is the list of its bytes before the
terminating NUL, `int` is the 16-bit two's-complement integer of the AVR
target, and an access outside an array has no defined result (`none`).
-/

namespace Switchkeys

/-! ## Machine integers -/

/-- The value of an `int` (16 bits, two's complement on AVR) after an
arithmetic result `x` is stored. -/
def wrapInt16 (x : Int) : Int := (x + 32768) % 65536 - 32768

/-- The value of a plain `char` (signed, 8 bits with avr-gcc) after an
arithmetic result `x` is stored. -/
def wrapChar (x : Int) : Int := (x + 128) % 256 - 128

/-- The value of an `unsigned char` after an arithmetic result `x` is stored. -/
def wrapUChar (x : Int) : Nat := (x % 256).toNat

/-- Character codes of a string literal. -/
def str (s : String) : List Nat := s.toList.map Char.toNat

/-! ## `hash` (main.c 37-41, 291-300) -/

/-- The table `hashKey[]`, main.c line 41. -/
def hashKey : List Int :=
  [7, 11, 13, 17, 29, 37, 43, 41, 57, 59, 61, 67, 71, 79, 83, 87, 97, 101, 203, 313, 497,
   421, 211, 197, 139, 241]

/-- The read `hashKey[ c - 97 ]`; the index is computed in `int`, and the read
is defined only inside the table. -/
def hashKeyAt (c : Nat) : Option Int :=
  if 97 ≤ c then hashKey[c - 97]? else none

/-- One iteration of the loop of `hash`: `sum += hashKey[ *(word + i) - 97 ]`. -/
def hashStep (sum : Int) (c : Nat) : Option Int :=
  (hashKeyAt c).map (fun k => wrapInt16 (sum + k))

/-- The function `hash(word)`: `word` is the list of the `strlen(word)` bytes before the
terminator. -/
def hash (word : List Nat) : Option Int :=
  word.foldlM hashStep 0

/-! ## `isPerm` (main.c 302-341) -/

/-- Length of the C string stored in a buffer: bytes before the first NUL. -/
def strlen (buf : List Nat) : Nat := (buf.takeWhile (fun c => c ≠ 0)).length

/-- The C string stored in a buffer. -/
def cstr (buf : List Nat) : List Nat := buf.takeWhile (fun c => c ≠ 0)

/-- An uninitialised `char [100]` on the stack: its 100 bytes are whatever
`g` says was there before. -/
def stackBuf (g : Nat → Nat) : List Nat := (List.range 100).map g

/-- The call `strcpy(dst, src)`: copies the bytes of `src` and the terminator, leaves
the rest of `dst` as it was; undefined when `src` and its terminator do not fit. -/
def strcpy (dst src : List Nat) : Option (List Nat) :=
  if src.length < dst.length then some (src ++ 0 :: dst.drop (src.length + 1)) else none

/-- Body of the inner loop of `isPerm` (lines 320-325) for the indices `i`, `j`;
the sentinel `'0'` is byte 48.  The `continue` only ends this iteration. -/
def isPermInner (i : Nat) (s : List Nat × List Nat) (j : Nat) : List Nat × List Nat :=
  if s.1.getD i 0 = s.2.getD j 0 then (s.1.set i 48, s.2.set j 48) else s

/-- The nested marking loops of `isPerm` (lines 316-327). -/
def isPermMark (len : Nat) (s : List Nat × List Nat) : List Nat × List Nat :=
  (List.range len).foldl (fun t i => (List.range len).foldl (isPermInner i) t) s

/-- The final checking loop of `isPerm` (lines 329-340): 0 at the first index where the
two marks are not both `'0'`, else 1. -/
def isPermCheck (len : Nat) (s : List Nat × List Nat) : Int :=
  if (List.range len).all (fun i => s.1.getD i 0 = s.2.getD i 0 ∧ s.1.getD i 0 = 48) then 1 else 0

/-- The function `isPerm(string1, string2)`; `g1`, `g2` give the previous contents of
the stack arrays `str1`, `str2`. -/
def isPerm (g1 g2 : Nat → Nat) (string1 string2 : List Nat) : Option Int :=
  match hash string1, hash string2 with
  | some h1, some h2 =>
    if h1 ≠ h2 then some 0
    else
      match strcpy (stackBuf g1) string1, strcpy (stackBuf g2) string2 with
      | some str1, some str2 =>
        some (isPermCheck (strlen str1) (isPermMark (strlen str1) (str1, str2)))
      | _, _ => none
  | _, _ => none

/-- A byte that is a lowercase letter `'a'..'z'`. -/
def isLower (c : Nat) : Prop := 97 ≤ c ∧ c ≤ 122

instance (c : Nat) : Decidable (isLower c) := by unfold isLower; infer_instance

/-- Exact integer weight of a byte (0 outside the table). -/
def weight (c : Nat) : Int := (hashKeyAt c).getD 0

/-- Exact integer sum of the letter weights of a word. -/
def hashSum (w : List Nat) : Int := (w.map weight).sum

/-- The first `len` cells of both scratch buffers. -/
def trunc (len : Nat) (s : List Nat × List Nat) : List Nat × List Nat :=
  (s.1.take len, s.2.take len)

/-! ## The keypad state machine (main.c 14-35, 105-142, 343-404) -/

/-- A call into the display library `lcd.c` (external; the calls are recorded in
order). -/
inductive LcdOp where
  | gotoxy (x y : Int)
  | putc (c : Nat)
  | puts (s : List Nat)
  | clrscr
  deriving DecidableEq

/-- The global variables of `main.c` that the handlers read and write, the timer
registers, `matchCount` of `main`, and the record of display calls.  The loop
counters `i`, `c` are set before each use and are left out. -/
structure State where
  key : Nat
  character : Nat
  timer_count : Nat
  count : List Nat
  input : List Nat
  wlength : Int
  isBackspacePressed : Int
  matchCount : Int
  TCCR0 : Nat
  TCNT0 : Nat
  lcd : List LcdOp
  deriving DecidableEq

/-- The table `tchar[8]`, main.c line 29: `'a','e','i','m','q','u','y','0'`. -/
def tchar : List Nat := [97, 101, 105, 109, 113, 117, 121, 48]

/-- The assignment `character = tchar[i] + (count[i] - 1)%4` for `count[i] = cnt`:
computed in `int` (`%` truncates toward zero), stored in an `unsigned char`. -/
def keyChar (i cnt : Nat) : Nat :=
  wrapUChar ((tchar.getD i 0 : Int) + Int.tmod ((cnt : Int) - 1) 4)

/-- The state when `main` enters its `while(1)` loop: globals as initialised, timer
stopped, display record started afresh. -/
def init : State :=
  { key := 0, character := 0, timer_count := 0, count := [0, 0, 0, 0, 0, 0, 0, 0],
    input := List.replicate 11 0, wlength := 0, isBackspacePressed := 0, matchCount := 0,
    TCCR0 := 0, TCNT0 := 0, lcd := [] }

/-- The function `transmit(character, inPlace)`, main.c 343-356.  The store
`input[(int)wlength] = character` is defined only inside `input[11]`. -/
def transmit (character : Nat) (inPlace : Int) (s : State) : Option State :=
  let s1 := { s with lcd := s.lcd ++ [LcdOp.gotoxy s.wlength 0] }
  if inPlace = 0 then
    if 0 ≤ s1.wlength ∧ s1.wlength < 11 then
      let s2 := { s1 with input := s1.input.set s1.wlength.toNat character,
                          wlength := wrapChar (s1.wlength + 1) }
      some { s2 with lcd := s2.lcd ++ [LcdOp.putc character, LcdOp.gotoxy s2.wlength 0] }
    else none
  else
    some { s1 with lcd := s1.lcd ++ [LcdOp.putc character, LcdOp.gotoxy s1.wlength 0] }

/-- First loop of the overflow handler (lines 113-119): the last non-zero `count[i]`
decides `character`; with no non-zero entry `character` keeps its value. -/
def resolveChar (count : List Nat) (character : Nat) : Nat :=
  (List.range 8).foldl
    (fun ch i => if count.getD i 0 ≠ 0 then keyChar i (count.getD i 0) else ch) character

/-- Second loop of the overflow handler (lines 128-131). -/
def resetCount (count : List Nat) : List Nat :=
  (List.range 8).foldl (fun c i => c.set i 0) count

/-- The handler `SIGNAL(SIG_OVERFLOW0)`, main.c 108-142. -/
def SIG_OVERFLOW0 (s : State) : Option State :=
  if (s.timer_count + 1) % 4 = 0 then
    let s1 := { s with character := resolveChar s.count s.character }
    let r := if s1.isBackspacePressed = 0 then transmit s1.character 0 s1
             else some { s1 with isBackspacePressed := 0 }
    r.map (fun s2 => { s2 with count := resetCount s2.count, TCCR0 := 0, timer_count := 0 })
  else
    some { s with TCNT0 := 4, timer_count := wrapUChar ((s.timer_count : Int) + 1) }

/-- Body of the loop of `set_timer` (lines 367-400) for the index `i`. -/
def set_timer_body (s : State) (i : Nat) : Option State :=
  if i ≠ s.key - 1 then
    if s.count.getD i 0 ≠ 0 then
      let s1 := { s with character := keyChar i (s.count.getD i 0) }
      (transmit s1.character 0 s1).map (fun s2 => { s2 with count := s2.count.set i 0 })
    else some s
  else
    if s.key = 7 ∧ s.count.getD (s.key - 1) 0 % 3 = 0 then
      (transmit 32 1 s).bind (fun s1 =>
        (transmit 32 1 { s1 with wlength := wrapChar (s1.wlength - 1) }).map (fun s3 =>
          { s3 with count := s3.count.set (s3.key - 1) 0, isBackspacePressed := 1 }))
    else
      let s1 := { s with character := keyChar i (s.count.getD i 0) }
      transmit s1.character 1 s1

/-- The function `set_timer()`, main.c 359-404, for the key number in `key`.
`count[key - 1]` lies inside `count[8]` for `key` in 1..8 only. -/
def set_timer (s : State) : Option State :=
  if 1 ≤ s.key ∧ s.key ≤ 8 then
    let s0 := { s with TCCR0 := 0 }
    let n := wrapUChar ((s0.count.getD (s0.key - 1) 0 : Int) + 1)
    let s1 := { s0 with count := s0.count.set (s0.key - 1) n }
    ((List.range 8).foldlM set_timer_body s1).map (fun s2 => { s2 with TCCR0 := 5, TCNT0 := 4 })
  else none

/-! ## The dictionary and the submit branch (main.c 68-103, 145-154, 235-277) -/

/-- The array `dict[]`, main.c 68-100. -/
def dict : List (List Nat) :=
  ["god", "dog", "lame", "zigbee", "dirac", "laplace", "euler", "zeta", "gamma", "magma",
   "contour", "idiot", "muon", "male", "female", "insert", "dummy", "muddy", "deaf", "fade",
   "cafe", "ship", "face", "cat", "act", "embedded", "intel", "kids", "professor",
   "disk"].map str

/-- The variable `dictSize`, main.c line 103. -/
def dictSize : Nat := 30

/-- The values the start-up loop (lines 151-154) stores: `dictHash[i] = hash(dict[i])`
for `i < dictSize`.  Only the stored values are modelled here, not the size of the
allocation that holds them. -/
def dictHash : List Int :=
  (List.range dictSize).map (fun i => (hash (dict.getD i [])).getD 0)

/-- The text of the no-match message. -/
def noMatchMsg : List Nat := str "No match found."

/-- Body of the dictionary loop of the submit branch (lines 245-265) for index `i`;
`g1 i`, `g2 i` are the old contents of the scratch arrays of that call of `isPerm`. -/
def submitBody (g1 g2 : Nat → Nat → Nat) (inputHash : Int) (s : State) (i : Nat) :
    Option State :=
  if inputHash = dictHash.getD i 0 then
    match isPerm (g1 i) (g2 i) (cstr s.input) (dict.getD i []) with
    | none => none
    | some r =>
      if r ≠ 0 then
        some { s with lcd := s.lcd ++ [LcdOp.gotoxy 0 1, LcdOp.puts (dict.getD i [])],
                      matchCount := wrapInt16 (s.matchCount + 1) }
      else some s
  else some s

/-- The dictionary loop of the submit branch, after the terminator is stored and
the hash of the input is taken (lines 239-265). -/
def submitLoop (g1 g2 : Nat → Nat → Nat) (s : State) : Option State :=
  if 0 ≤ s.wlength ∧ s.wlength < 11 then
    let s1 := { s with input := s.input.set s.wlength.toNat 0 }
    match hash (cstr s1.input) with
    | none => none
    | some inputHash => (List.range dictSize).foldlM (submitBody g1 g2 inputHash) s1
  else none

/-- The submit branch of `main` (`case 0b11111110`, lines 235-277), as the
sequential code runs when no interrupt arrives inside it. -/
def submit (g1 g2 : Nat → Nat → Nat) (s : State) : Option State :=
  (submitLoop g1 g2 s).map (fun s2 =>
    let s3 := { s2 with wlength := 0 }
    let s4 := if s3.matchCount = 0 then
        { s3 with lcd := s3.lcd ++ [LcdOp.gotoxy 0 1, LcdOp.puts noMatchMsg] }
      else s3
    { s4 with lcd := s4.lcd ++ [LcdOp.clrscr] })

/-! ## The submit branch with the overflow interrupt enabled

Interrupts stay enabled (`sei()`, line 165) while the submit branch runs, and the
branch waits in `_delay(4)` after every reported word (line 258) and once at its end
(line 274).  With the timer running, overflow interrupts arrive during these waits.
How many arrive depends on the clock and is given from outside, as `ticks`. -/

/-- The overflow interrupt raised `n` times in a row; it is raised only while the
timer runs (`TCCR0` non-zero). -/
def overflows : Nat → State → Option State
  | 0, s => some s
  | n + 1, s => (if s.TCCR0 = 0 then some s else SIG_OVERFLOW0 s).bind (overflows n)

/-- The C string that starts at `input`, as `strlen` sees it: defined only when a NUL
lies inside the buffer. -/
def cstrIn (buf : List Nat) : Option (List Nat) :=
  if 0 ∈ buf then some (cstr buf) else none

/-- Body of the dictionary loop (lines 245-265) for index `i`, with `ticks i` overflow
interrupts arriving during the `_delay(4)` of line 258, after the word is shown and
before `matchCount++`. -/
def submitBodyTicks (g1 g2 : Nat → Nat → Nat) (ticks : Nat → Nat) (inputHash : Int)
    (s : State) (i : Nat) : Option State :=
  if inputHash = dictHash.getD i 0 then
    match (cstrIn s.input).bind (fun w => isPerm (g1 i) (g2 i) w (dict.getD i [])) with
    | none => none
    | some r =>
      if r ≠ 0 then
        let s1 := { s with lcd := s.lcd ++ [LcdOp.gotoxy 0 1, LcdOp.puts (dict.getD i [])] }
        (overflows (ticks i) s1).map
          (fun s2 => { s2 with matchCount := wrapInt16 (s2.matchCount + 1) })
      else some s
  else some s

/-- The dictionary loop of the submit branch (lines 239-265) with interrupts. -/
def submitLoopTicks (g1 g2 : Nat → Nat → Nat) (ticks : Nat → Nat) (s : State) :
    Option State :=
  if 0 ≤ s.wlength ∧ s.wlength < 11 then
    let s1 := { s with input := s.input.set s.wlength.toNat 0 }
    match hash (cstr s1.input) with
    | none => none
    | some inputHash =>
      (List.range dictSize).foldlM (submitBodyTicks g1 g2 ticks inputHash) s1
  else none

/-- The submit branch of `main` (lines 235-277) with interrupts: `ticks i` overflows
during the wait after the word of index `i`, and `ticks dictSize` overflows during the
closing `_delay(4)` of line 274, after `wlength = 0` and the no-match message and
before `lcd_clrscr()`. -/
def submitTicks (g1 g2 : Nat → Nat → Nat) (ticks : Nat → Nat) (s : State) : Option State :=
  (submitLoopTicks g1 g2 ticks s).bind (fun s2 =>
    let s3 := { s2 with wlength := 0 }
    let s4 := if s3.matchCount = 0 then
        { s3 with lcd := s3.lcd ++ [LcdOp.gotoxy 0 1, LcdOp.puts noMatchMsg] }
      else s3
    (overflows (ticks dictSize) s4).map (fun s5 => { s5 with lcd := s5.lcd ++ [LcdOp.clrscr] }))

/-- No overflow arrives during the waits of the submit branch (so it is whenever the
timer is stopped). -/
def noTicks : Nat → Nat := fun _ => 0

/-- One overflow arrives during the wait after the word of index 0, none later. -/
def tickAfterFirstWord : Nat → Nat := fun i => if i = 0 then 1 else 0

/-! ## Events -/

/-- What can happen while `main` loops: the pins show key `k`, the timer
overflows, or the pins show the submit key; `ticks` tells how many overflows arrive
during each wait of the submit branch. -/
inductive Event where
  | press (k : Nat)
  | overflow
  | submit (g1 g2 : Nat → Nat → Nat) (ticks : Nat → Nat)

/-- One event.  A key number outside 1..7 is no case of the `switch` (`default:
break`); the overflow interrupt is raised only while the timer runs
(`TCCR0` non-zero); `set_timer` stops the timer before it does anything else, so no
overflow arrives inside it. -/
def step (s : State) : Event → Option State
  | .press k => if 1 ≤ k ∧ k ≤ 7 then set_timer { s with key := k } else some s
  | .overflow => if s.TCCR0 = 0 then some s else SIG_OVERFLOW0 s
  | .submit g1 g2 ticks => submitTicks g1 g2 ticks s

/-- A sequence of events, in order. -/
def run (s : State) (es : List Event) : Option State := es.foldlM step s

/-- No stack contents: every byte of the scratch arrays was 0. -/
def zeroStack : Nat → Nat → Nat := fun _ _ => 0

/-- The display calls that report the words `ws`, one after the other (lines
254-255). -/
def reportOps (ws : List (List Nat)) : List LcdOp :=
  (ws.map (fun d => [LcdOp.gotoxy 0 1, LcdOp.puts d])).flatten

/-- The dictionary words that are permutations of `w`, in dictionary order. -/
def anagrams (w : List Nat) : List (List Nat) :=
  dict.filter (fun d => decide (w.Perm d))

/-- The words reported on the display: the arguments of the `lcd_puts` calls. -/
def putsWords (ops : List LcdOp) : List (List Nat) :=
  ops.filterMap (fun o => match o with
    | LcdOp.puts w => some w
    | _ => none)

/-- Key presses that compose "dog": key 1 four times, key 4 three times, key 2 three
times, then the time-out of the last key. -/
def dogEvents : List Event :=
  List.replicate 4 (Event.press 1) ++ List.replicate 3 (Event.press 4) ++
    List.replicate 3 (Event.press 2) ++ List.replicate 4 Event.overflow

/-- A state in which key `k` has been pressed `c` times (`c` may be 0) and no other
key is pending, the buffer and the flags being those of `s0`. -/
def Pending (k c : Nat) (s0 t : State) : Prop :=
  t.count = (List.replicate 8 0).set (k - 1) c ∧ t.character = keyChar (k - 1) c ∧
  t.TCCR0 = 5 ∧ t.wlength = s0.wlength ∧ t.input = s0.input ∧
  t.timer_count = s0.timer_count ∧ t.isBackspacePressed = s0.isBackspacePressed ∧
  t.matchCount = s0.matchCount

/-- The two lists keep their lengths, and for a byte other than the sentinel the
difference of its numbers of occurrences is unchanged. -/
def MarkInv (s t : List Nat × List Nat) : Prop :=
  t.1.length = s.1.length ∧ t.2.length = s.2.length ∧
  (∀ x, x ≠ 48 → t.1.count x + s.2.count x = s.1.count x + t.2.count x) ∧
  (∀ k, t.1.getD k 0 = s.1.getD k 0 ∨ t.1.getD k 0 = 48)

/-- Loop invariant of `set_timer` for a press of key `b + 1` while key `a + 1` is
pending with count `n`: before index `a` nothing has changed, after it the character
`ch` of key `a + 1` is committed at `wl` and its count is cleared. -/
def PreemptInv (a b n : Nat) (wl : Int) (inp : List Nat) (ch : Nat) (m : Nat) (t : State) :
    Prop :=
  t.key = b + 1 ∧ t.count.length = 8 ∧ t.count.getD b 0 = 1 ∧
  (∀ i, i ≠ a → i ≠ b → t.count.getD i 0 = 0) ∧
  (a < m → t.count.getD a 0 = 0 ∧ t.wlength = wl + 1 ∧ t.input = inp.set wl.toNat ch) ∧
  (¬ a < m → t.count.getD a 0 = n ∧ t.wlength = wl ∧ t.input = inp)

/-- The word buffer: the first `wlength` bytes of `input`. -/
def wordBuffer (s : State) : List Nat := s.input.take s.wlength.toNat

/-- One character typed with key 1 and left to time out. -/
def typeA : List Event := Event.press 1 :: List.replicate 4 Event.overflow

/-- Eleven characters typed with key 1, each left to time out. -/
def elevenA : List Event := (List.replicate 11 typeA).flatten

/-- At most one entry of `count[]` is non-zero. -/
def AtMostOne (count : List Nat) : Prop :=
  ∀ i j, count.getD i 0 ≠ 0 → count.getD j 0 ≠ 0 → i = j

/-- The state after key 1 was pressed twice and key 2 once, from the initial state. -/
def afterPreempt : State :=
  { key := 2, character := 101, timer_count := 0, count := [0, 1, 0, 0, 0, 0, 0, 0],
    input := 98 :: List.replicate 10 0, wlength := 1, isBackspacePressed := 0,
    matchCount := 0, TCCR0 := 5, TCNT0 := 4,
    lcd := [LcdOp.gotoxy 0 0, LcdOp.putc 97, LcdOp.gotoxy 0 0,
            LcdOp.gotoxy 0 0, LcdOp.putc 98, LcdOp.gotoxy 0 0,
            LcdOp.gotoxy 0 0, LcdOp.putc 98, LcdOp.gotoxy 1 0,
            LcdOp.gotoxy 1 0, LcdOp.putc 101, LcdOp.gotoxy 1 0] }

/-- The size `sizeof(int)` on the AVR target, in bytes. -/
def sizeofInt : Nat := 2

/-- The argument of `malloc` in line 150, `(int *)malloc(dictSize)`: the number of
bytes of the block that `dictHash` points to. -/
def dictHashBytes : Nat := dictSize

/-- Whether slot `i` of an `int` array lies inside a block of `bytes` bytes: it takes
the bytes `sizeofInt * i` up to `sizeofInt * (i + 1) - 1`. -/
def slotInside (bytes i : Nat) : Prop := sizeofInt * (i + 1) ≤ bytes

instance (bytes i : Nat) : Decidable (slotInside bytes i) := by
  unfold slotInside; infer_instance

/-- The start-up loop of `main` (lines 151-154) on a block of `bytes` bytes, for the
first `n` indices: the store `dictHash[i] = hash(dict[i])` is defined only for a slot
inside the block. -/
def buildDictHash (bytes n : Nat) : Option (List Int) :=
  (List.range n).foldlM
    (fun tbl i => if slotInside bytes i then (hash (dict.getD i [])).map (fun h => tbl ++ [h])
      else none) []

/-- A character typed and deleted again, that is key 1 and its time-out, then key 7
three times in a row (the backspace trigger), with no time-out after the trigger. -/
def typeAndDelete : List Event :=
  typeA ++ List.replicate 3 (Event.press 7)

/-- The initial state with key 1 pressed 255 times in a row: `count[0]` holds the
largest value of an `unsigned char`. -/
def fullCount : State :=
  { init with key := 1, count := [255, 0, 0, 0, 0, 0, 0, 0], character := 99, TCCR0 := 5,
              TCNT0 := 4 }

/-- The initial state with "do" committed and key 2 pressed three times (`'g'`
echoed, not committed). -/
def dogPending : State :=
  { init with key := 2, character := 103, count := [0, 3, 0, 0, 0, 0, 0, 0],
              input := str "do" ++ List.replicate 9 0, wlength := 2, TCCR0 := 5, TCNT0 := 4 }

/-- Events that compose "dog" and then press key 1 once, with three overflows counted
after that press: `'a'` is echoed and pending, `timer_count` is 3. -/
def dogThenA : List Event :=
  dogEvents ++ [Event.press 1, Event.overflow, Event.overflow, Event.overflow]

/-! ## Theorems: `hash` -/

theorem foldl_inv {α β : Type} (P : α → Prop) (f : α → β → α) (l : List β) (s : α)
    (h : ∀ t x, x ∈ l → P t → P (f t x)) (hs : P s) : P (l.foldl f s) := by
  induction l generalizing s with
  | nil => exact hs
  | cons x xs ih =>
    simp only [List.foldl_cons]
    exact ih _ (fun t y hy => h t y (List.mem_cons_of_mem _ hy))
      (h s x (List.mem_cons_self _ _) hs)

theorem foldl_comm {α β : Type} (h : α → α) (f g : α → β → α) (l : List β) (s : α)
    (hc : ∀ t x, x ∈ l → h (f t x) = g (h t) x) : h (l.foldl f s) = l.foldl g (h s) := by
  induction l generalizing s with
  | nil => rfl
  | cons x xs ih =>
    simp only [List.foldl_cons]
    rw [ih _ (fun t y hy => hc t y (List.mem_cons_of_mem _ hy)), hc s x (List.mem_cons_self _ _)]

theorem hashKeyAt_lower (c : Nat) (hc : isLower c) :
    hashKeyAt c = some (weight c) ∧ 7 ≤ weight c ∧ weight c ≤ 497 := by
  obtain ⟨h1, h2⟩ := hc
  interval_cases c <;> decide

theorem wrapInt16_add (x k : Int) : wrapInt16 (wrapInt16 x + k) = wrapInt16 (x + k) := by
  unfold wrapInt16; omega

theorem hash_acc (w : List Nat) (hw : ∀ c ∈ w, isLower c) (acc : Int) :
    w.foldlM hashStep (wrapInt16 acc) = some (wrapInt16 (acc + hashSum w)) := by
  induction w generalizing acc with
  | nil => simp [hashSum]
  | cons c cs ih =>
    have hc := hashKeyAt_lower c (hw c (List.mem_cons_self _ _))
    simp only [List.foldlM_cons, hashStep, hc.1, Option.map_some', Option.bind_eq_bind,
      Option.some_bind, wrapInt16_add]
    rw [ih (fun d hd => hw d (List.mem_cons_of_mem _ hd))]
    simp [hashSum, add_assoc]

theorem hash_lower (w : List Nat) (hw : ∀ c ∈ w, isLower c) :
    hash w = some (wrapInt16 (hashSum w)) := by
  have h := hash_acc w hw 0
  simpa [hash, wrapInt16] using h

theorem hashSum_bounds (w : List Nat) (hw : ∀ c ∈ w, isLower c) :
    7 * (w.length : Int) ≤ hashSum w ∧ hashSum w ≤ 497 * (w.length : Int) := by
  induction w with
  | nil => simp [hashSum]
  | cons c cs ih =>
    have hc := hashKeyAt_lower c (hw c (List.mem_cons_self _ _))
    have := ih (fun d hd => hw d (List.mem_cons_of_mem _ hd))
    simp only [hashSum, List.map_cons, List.sum_cons, List.length_cons, Nat.cast_add,
      Nat.cast_one] at this ⊢
    omega

theorem hashSum_append (a b : List Nat) : hashSum (a ++ b) = hashSum a + hashSum b := by
  simp [hashSum]

theorem hashSum_perm (a b : List Nat) (h : a.Perm b) : hashSum a = hashSum b :=
  (h.map weight).sum_eq

theorem wrapInt16_inj (x y : Int) (hx : 0 ≤ x) (hx2 : x < 65536) (hy : 0 ≤ y) (hy2 : y < 65536)
    (h : wrapInt16 x = wrapInt16 y) : x = y := by
  unfold wrapInt16 at h; omega

/-! ## Theorems: the marking loops of `isPerm` -/

theorem getD_take_lt (l : List Nat) (n i : Nat) (h : i < n) :
    (l.take n).getD i 0 = l.getD i 0 := by
  simp [List.getD_eq_getElem?_getD, List.getElem?_take, h]

theorem isPermInner_trunc (len i j : Nat) (hi : i < len) (hj : j < len)
    (s : List Nat × List Nat) :
    trunc len (isPermInner i s j) = isPermInner i (trunc len s) j := by
  unfold isPermInner trunc
  simp only [getD_take_lt _ _ _ hi, getD_take_lt _ _ _ hj]
  split <;> simp [List.set_take]

theorem isPermMark_trunc (len : Nat) (s : List Nat × List Nat) :
    trunc len (isPermMark len s) = isPermMark len (trunc len s) := by
  unfold isPermMark
  apply foldl_comm (trunc len)
  intro t i hi
  apply foldl_comm (trunc len)
  intro u j hj
  exact isPermInner_trunc len i j (List.mem_range.1 hi) (List.mem_range.1 hj) u

theorem isPermCheck_trunc (len : Nat) (s : List Nat × List Nat) :
    isPermCheck len s = isPermCheck len (trunc len s) := by
  unfold isPermCheck trunc
  have : (List.range len).all
        (fun i => decide (s.1.getD i 0 = s.2.getD i 0 ∧ s.1.getD i 0 = 48)) =
      (List.range len).all (fun i => decide ((s.1.take len).getD i 0 = (s.2.take len).getD i 0 ∧
        (s.1.take len).getD i 0 = 48)) := by
    rw [Bool.eq_iff_iff]
    simp only [List.all_eq_true, List.mem_range]
    constructor
    · intro h i hi
      rw [getD_take_lt _ _ _ hi, getD_take_lt _ _ _ hi]
      exact h i hi
    · intro h i hi
      have := h i hi
      rw [getD_take_lt _ _ _ hi, getD_take_lt _ _ _ hi] at this
      exact this
  simp only [this]

/-- The check passes exactly when every cell of both lists is the sentinel. -/
theorem isPermCheck_eq_one (A B : List Nat) :
    isPermCheck A.length (A, B) = 1 ↔
      ∀ i, i < A.length → A.getD i 0 = 48 ∧ B.getD i 0 = 48 := by
  unfold isPermCheck
  by_cases hall : (List.range A.length).all
      (fun i => decide (A.getD i 0 = B.getD i 0 ∧ A.getD i 0 = 48)) = true
  · simp only [hall, if_true, true_iff]
    simp only [List.all_eq_true, List.mem_range, decide_eq_true_eq] at hall
    intro i hi
    have := hall i hi
    exact ⟨this.2, by rw [← this.1]; exact this.2⟩
  · simp only [hall]
    simp only [List.all_eq_true, List.mem_range, decide_eq_true_eq] at hall
    constructor
    · intro h; exact absurd h (by decide)
    · intro h
      exact absurd (fun i hi => ⟨by rw [(h i hi).1, (h i hi).2], (h i hi).1⟩) hall

theorem isPermCheck_zero_or_one (len : Nat) (s : List Nat × List Nat) :
    isPermCheck len s = 0 ∨ isPermCheck len s = 1 := by
  unfold isPermCheck; split <;> simp

theorem count_set_sentinel (l : List Nat) (i x : Nat) (hi : i < l.length) (hx : x ≠ 48) :
    (l.set i 48).count x + (if l.getD i 0 = x then 1 else 0) = l.count x := by
  rw [List.count_set _ _ _ _ hi, List.getD_eq_getElem _ _ hi]
  have h48 : ((48 : Nat) == x) = false := by simpa using Ne.symm hx
  simp only [h48, beq_iff_eq]
  by_cases h : l[i] = x
  · have : 0 < l.count x := List.count_pos_iff.2 (h ▸ List.getElem_mem _)
    simp [h]; omega
  · simp [h]

theorem MarkInv.refl (s : List Nat × List Nat) : MarkInv s s :=
  ⟨rfl, rfl, fun _ _ => rfl, fun _ => Or.inl rfl⟩

theorem MarkInv.inner (len i j : Nat) (s t : List Nat × List Nat)
    (h1 : s.1.length = len) (h2 : s.2.length = len) (hi : i < len) (hj : j < len)
    (h : MarkInv s t) : MarkInv s (isPermInner i t j) := by
  obtain ⟨l1, l2, hc, hk⟩ := h
  unfold isPermInner
  split
  · rename_i heq
    refine ⟨by simp [l1], by simp [l2], ?_, ?_⟩
    · intro x hx
      have a1 := count_set_sentinel t.1 i x (by omega) hx
      have a2 := count_set_sentinel t.2 j x (by omega) hx
      have := hc x hx
      rw [heq] at a1
      simp only
      omega
    · intro k
      by_cases hki : i = k
      · right; subst hki; simp [List.getD_eq_getElem?_getD, List.getElem?_set, l1, h1, hi]
      · rcases hk k with h | h
        · left; rw [← h]; simp [List.getD_eq_getElem?_getD, List.getElem?_set, hki]
        · right; rw [← h]; simp [List.getD_eq_getElem?_getD, List.getElem?_set, hki]
  · exact ⟨l1, l2, hc, hk⟩

theorem getD_set_self (l : List Nat) (i v : Nat) (hi : i < l.length) :
    (l.set i v).getD i 0 = v := by
  simp [List.getD_eq_getElem?_getD, List.getElem?_set, hi]

theorem getD_set_other (l : List Nat) (i k v : Nat) (hik : i ≠ k) :
    (l.set i v).getD k 0 = l.getD k 0 := by
  simp [List.getD_eq_getElem?_getD, List.getElem?_set, hik]

/-- The inner loop for `i` keeps the invariant. -/
theorem MarkInv.innerLoop (len i : Nat) (s t : List Nat × List Nat)
    (h1 : s.1.length = len) (h2 : s.2.length = len) (hi : i < len) (h : MarkInv s t) :
    MarkInv s ((List.range len).foldl (isPermInner i) t) := by
  apply foldl_inv (MarkInv s) _ _ _ _ h
  intro u j hj hu
  exact MarkInv.inner len i j s u h1 h2 hi (List.mem_range.1 hj) hu

theorem isPermInner_length (i j : Nat) (u : List Nat × List Nat) :
    (isPermInner i u j).1.length = u.1.length := by
  unfold isPermInner; split <;> simp

theorem isPermInner_frame (i j k : Nat) (u : List Nat × List Nat) (hik : i ≠ k) :
    (isPermInner i u j).1.getD k 0 = u.1.getD k 0 := by
  unfold isPermInner
  split
  · exact getD_set_other _ _ _ _ hik
  · rfl

theorem isPermInner_marked (i j : Nat) (u : List Nat × List Nat) (hi : i < u.1.length)
    (h : u.1.getD i 0 = 48 ∨ u.1.getD i 0 = u.2.getD j 0) :
    (isPermInner i u j).1.getD i 0 = 48 := by
  unfold isPermInner
  split
  · exact getD_set_self _ _ _ hi
  · rename_i hne
    rcases h with h | h
    · exact h
    · exact absurd h hne

theorem isPermInner_unchanged (i j : Nat) (u : List Nat × List Nat)
    (h : u.1.getD i 0 ≠ u.2.getD j 0) : isPermInner i u j = u := by
  unfold isPermInner; rw [if_neg h]

/-- The inner loop for `i` writes no cell of the first list other than `i`. -/
theorem innerLoop_frame (n i k : Nat) (t : List Nat × List Nat) (hik : i ≠ k) :
    ((List.range n).foldl (isPermInner i) t).1.getD k 0 = t.1.getD k 0 := by
  refine foldl_inv (fun u : List Nat × List Nat => u.1.getD k 0 = t.1.getD k 0) _ _ _ ?_ rfl
  intro u j _ hu
  rw [← hu]
  exact isPermInner_frame i j k u hik

theorem innerLoop_length (n i : Nat) (t : List Nat × List Nat) :
    ((List.range n).foldl (isPermInner i) t).1.length = t.1.length := by
  refine foldl_inv (fun u : List Nat × List Nat => u.1.length = t.1.length) _ _ _ ?_ rfl
  intro u j _ hu
  rw [← hu]
  exact isPermInner_length i j u

/-- After `n` steps of the inner loop for `i`, either cell `i` is marked, or nothing
was written and no cell below `n` of the second list matched. -/
theorem innerLoop_progress (n i : Nat) (t : List Nat × List Nat) (hi : i < t.1.length) :
    ((List.range n).foldl (isPermInner i) t).1.getD i 0 = 48 ∨
      ((List.range n).foldl (isPermInner i) t = t ∧
        ∀ j, j < n → t.2.getD j 0 ≠ t.1.getD i 0) := by
  induction n with
  | zero => right; simp
  | succ n ih =>
    rw [List.range_succ, List.foldl_append]
    simp only [List.foldl_cons, List.foldl_nil]
    have hlen := innerLoop_length n i t
    rcases ih with h | ⟨h, hno⟩
    · left
      exact isPermInner_marked i n _ (by omega) (Or.inl h)
    · rw [h]
      by_cases hm : t.1.getD i 0 = t.2.getD n 0
      · left; exact isPermInner_marked i n t hi (Or.inr hm)
      · right
        refine ⟨isPermInner_unchanged i n t hm, fun j hj => ?_⟩
        rcases Nat.lt_succ_iff_lt_or_eq.1 hj with hlt | heq
        · exact hno j hlt
        · subst heq; exact fun e => hm e.symm

theorem innerLoop_complete (n i j : Nat) (t : List Nat × List Nat) (hi : i < t.1.length)
    (hj : j < n) (hm : t.2.getD j 0 = t.1.getD i 0) :
    ((List.range n).foldl (isPermInner i) t).1.getD i 0 = 48 := by
  rcases innerLoop_progress n i t hi with h | ⟨_, hno⟩
  · exact h
  · exact absurd hm (hno j hj)

theorem exists_getD_of_count_pos (l : List Nat) (x : Nat) (h : 0 < l.count x) :
    ∃ j, j < l.length ∧ l.getD j 0 = x := by
  obtain ⟨j, hj, e⟩ := List.mem_iff_getElem.1 (List.count_pos_iff.1 h)
  exact ⟨j, hj, by rw [List.getD_eq_getElem _ _ hj]; exact e⟩

theorem count_pos_of_getD (l : List Nat) (k : Nat) (hk : k < l.length) :
    0 < l.count (l.getD k 0) := by
  rw [List.getD_eq_getElem _ _ hk]
  exact List.count_pos_iff.2 (List.getElem_mem _)

/-- After `n` rounds of the outer loop on lists with the same bytes, the first `n`
cells of the first list are marked and the others are untouched. -/
theorem outerLoop_marks (len n : Nat) (A B : List Nat) (hA : A.length = len)
    (hB : B.length = len) (h48 : 48 ∉ A) (hcount : ∀ x, A.count x = B.count x)
    (hn : n ≤ len) :
    MarkInv (A, B)
        ((List.range n).foldl (fun t i => (List.range len).foldl (isPermInner i) t) (A, B)) ∧
      (∀ k, k < n →
        ((List.range n).foldl (fun t i => (List.range len).foldl (isPermInner i) t)
          (A, B)).1.getD k 0 = 48) ∧
      (∀ k, n ≤ k →
        ((List.range n).foldl (fun t i => (List.range len).foldl (isPermInner i) t)
          (A, B)).1.getD k 0 = A.getD k 0) := by
  induction n with
  | zero => exact ⟨MarkInv.refl _, fun k hk => absurd hk (Nat.not_lt_zero k), fun _ _ => rfl⟩
  | succ n ih =>
    obtain ⟨inv, hlo, hhi⟩ := ih (by omega)
    rw [List.range_succ, List.foldl_append]
    simp only [List.foldl_cons, List.foldl_nil]
    generalize (List.range n).foldl (fun t i => (List.range len).foldl (isPermInner i) t)
      (A, B) = t at inv hlo hhi
    have hnl : n < len := by omega
    have ht1 : t.1.length = len := by rw [inv.1]; exact hA
    have ht2 : t.2.length = len := by rw [inv.2.1]; exact hB
    refine ⟨MarkInv.innerLoop len n (A, B) t hA hB hnl inv, ?_, ?_⟩
    · intro k hk
      rcases Nat.lt_succ_iff_lt_or_eq.1 hk with hlt | heq
      · rw [innerLoop_frame len n k t (by omega)]; exact hlo k hlt
      · subst heq
        have hc : t.1.getD k 0 = A.getD k 0 := hhi k (Nat.le_refl k)
        have hne : A.getD k 0 ≠ 48 := by
          intro e
          apply h48
          rw [← e, List.getD_eq_getElem _ _ (by omega)]
          exact List.getElem_mem _
        have hpos : 0 < t.1.count (t.1.getD k 0) := count_pos_of_getD t.1 k (by omega)
        have hcnt := inv.2.2.1 (A.getD k 0) hne
        have := hcount (A.getD k 0)
        simp only at hcnt
        rw [hc] at hpos
        obtain ⟨j, hj, e⟩ := exists_getD_of_count_pos t.2 (A.getD k 0) (by omega)
        exact innerLoop_complete len k j t (by omega) (by omega) (by rw [e, hc])
    · intro k hk
      rw [innerLoop_frame len n k t (by omega)]
      exact hhi k (by omega)

theorem isPermMark_inv (len : Nat) (A B : List Nat) (hA : A.length = len)
    (hB : B.length = len) : MarkInv (A, B) (isPermMark len (A, B)) := by
  unfold isPermMark
  refine foldl_inv (MarkInv (A, B)) _ _ _ ?_ (MarkInv.refl _)
  intro t i hi ht
  exact MarkInv.innerLoop len i (A, B) t hA hB (List.mem_range.1 hi) ht

theorem count_eq_zero_of_all_sentinel (l : List Nat) (x : Nat) (hx : x ≠ 48)
    (h : ∀ i, i < l.length → l.getD i 0 = 48) : l.count x = 0 := by
  rw [List.count_eq_zero]
  intro hm
  obtain ⟨j, hj, e⟩ := List.mem_iff_getElem.1 hm
  have := h j hj
  rw [List.getD_eq_getElem _ _ hj, e] at this
  exact hx this

theorem all_sentinel_of_count (l : List Nat) (h : ∀ x, x ≠ 48 → l.count x = 0) :
    ∀ i, i < l.length → l.getD i 0 = 48 := by
  intro i hi
  by_contra hne
  have := h _ hne
  have hpos := count_pos_of_getD l i hi
  omega

/-- Soundness of the marking: when the final check passes, both lists had the same
number of occurrences of every byte other than the sentinel. -/
theorem mark_sound (A B : List Nat) (hlen : B.length = A.length)
    (h : isPermCheck A.length (isPermMark A.length (A, B)) = 1) :
    ∀ x, x ≠ 48 → A.count x = B.count x := by
  have inv := isPermMark_inv A.length A B rfl hlen
  generalize isPermMark A.length (A, B) = T at h inv
  obtain ⟨T1, T2⟩ := T
  obtain ⟨l1, l2, hc, _⟩ := inv
  simp only at l1 l2 hc
  rw [← l1] at h
  have hall := (isPermCheck_eq_one T1 T2).1 h
  intro x hx
  have c1 := count_eq_zero_of_all_sentinel T1 x hx (fun i hi => (hall i hi).1)
  have c2 := count_eq_zero_of_all_sentinel T2 x hx
    (fun i hi => (hall i (by omega)).2)
  have := hc x hx
  omega

/-- Completeness of the marking: lists with the same bytes, none of them the
sentinel, pass the final check. -/
theorem mark_complete (A B : List Nat) (hlen : B.length = A.length) (h48 : 48 ∉ A)
    (hcount : ∀ x, A.count x = B.count x) :
    isPermCheck A.length (isPermMark A.length (A, B)) = 1 := by
  obtain ⟨inv, hlo, _⟩ := outerLoop_marks A.length A.length A B rfl hlen h48 hcount
    (Nat.le_refl _)
  change MarkInv (A, B) (isPermMark A.length (A, B)) at inv
  change ∀ k, k < A.length → (isPermMark A.length (A, B)).1.getD k 0 = 48 at hlo
  generalize isPermMark A.length (A, B) = T at inv hlo
  obtain ⟨T1, T2⟩ := T
  obtain ⟨l1, l2, hc, _⟩ := inv
  simp only at l1 l2 hc hlo
  rw [← l1]
  rw [isPermCheck_eq_one]
  have hT2 : ∀ i, i < T2.length → T2.getD i 0 = 48 := by
    apply all_sentinel_of_count
    intro x hx
    have c1 := count_eq_zero_of_all_sentinel T1 x hx (fun i hi => hlo i (by omega))
    have := hc x hx
    have := hcount x
    omega
  intro i hi
  exact ⟨hlo i (by omega), hT2 i (by omega)⟩

/-! ## Theorems: `isPerm` -/

theorem lower_ne_zero (a : List Nat) (ha : ∀ c ∈ a, isLower c) : ∀ c ∈ a, c ≠ 0 := by
  intro c hc e
  have := (ha c hc).1
  omega

theorem strlen_terminated (a r : List Nat) (ha : ∀ c ∈ a, c ≠ 0) :
    strlen (a ++ 0 :: r) = a.length := by
  unfold strlen
  induction a with
  | nil => simp
  | cons c cs ih =>
    have hc : c ≠ 0 := ha c (List.mem_cons_self _ _)
    simp only [List.cons_append, List.takeWhile_cons, ne_eq, hc, not_false_eq_true,
      decide_True, if_true, List.length_cons]
    rw [← ih (fun d hd => ha d (List.mem_cons_of_mem _ hd))]

theorem cstr_terminated (a r : List Nat) (ha : ∀ c ∈ a, c ≠ 0) :
    cstr (a ++ 0 :: r) = a := by
  unfold cstr
  induction a with
  | nil => simp
  | cons c cs ih =>
    have hc : c ≠ 0 := ha c (List.mem_cons_self _ _)
    simp only [List.cons_append, List.takeWhile_cons, ne_eq, hc, not_false_eq_true,
      decide_True, if_true]
    rw [ih (fun d hd => ha d (List.mem_cons_of_mem _ hd))]

theorem strcpy_stackBuf (g : Nat → Nat) (a : List Nat) (ha : a.length ≤ 99) :
    strcpy (stackBuf g) a = some (a ++ 0 :: (stackBuf g).drop (a.length + 1)) ∧
      (a ++ 0 :: (stackBuf g).drop (a.length + 1)).length = 100 := by
  unfold strcpy stackBuf
  simp only [List.length_map, List.length_range, List.length_append, List.length_cons,
    List.length_drop]
  constructor
  · rw [if_pos (by omega)]
  · omega

/-- The value `isPerm` computes once both hashes agree and the copies are made:
decided on the first `a.length` cells. -/
theorem isPerm_core (a b r1 r2 : List Nat) (ha : ∀ c ∈ a, isLower c)
    (hb : ∀ c ∈ b, isLower c) (hr2 : a.length ≤ (b ++ 0 :: r2).length)
    (hsum : hashSum a = hashSum b) :
    isPermCheck a.length (isPermMark a.length (a ++ 0 :: r1, b ++ 0 :: r2)) =
      if a.Perm b then 1 else 0 := by
  rw [isPermCheck_trunc, isPermMark_trunc]
  have hA : (trunc a.length (a ++ 0 :: r1, b ++ 0 :: r2)).1 = a := by simp [trunc]
  have hBlen : (trunc a.length (a ++ 0 :: r1, b ++ 0 :: r2)).2.length = a.length := by
    simp only [trunc, List.length_take]; omega
  generalize hB : (trunc a.length (a ++ 0 :: r1, b ++ 0 :: r2)).2 = B at hBlen
  have hT : trunc a.length (a ++ 0 :: r1, b ++ 0 :: r2) = (a, B) :=
    Prod.ext hA hB
  rw [hT]
  have h48 : 48 ∉ a := fun h => absurd (ha 48 h).1 (by decide)
  by_cases hp : a.Perm b
  · rw [if_pos hp]
    have hBb : B = b := by
      rw [← hB]; simp [trunc, hp.length_eq]
    subst hBb
    exact mark_complete a B hBlen h48 (fun x => hp.count_eq x)
  · rw [if_neg hp]
    rcases isPermCheck_zero_or_one a.length (isPermMark a.length (a, B)) with h0 | h1
    · exact h0
    · exfalso
      apply hp
      have hc := mark_sound a B hBlen h1
      have h0a : a.count 0 = 0 :=
        List.count_eq_zero.2 (fun h => lower_ne_zero a ha 0 h rfl)
      have h0B : B.count 0 = 0 := by rw [← hc 0 (by decide)]; exact h0a
      have hle : a.length ≤ b.length := by
        by_contra hlt
        have hmem : (0 : Nat) ∈ B := by
          rw [← hB]
          simp only [trunc]
          rw [List.mem_iff_getElem?]
          refine ⟨b.length, ?_⟩
          rw [List.getElem?_take, if_pos (by omega), List.getElem?_append_right (Nat.le_refl _)]
          simp
        exact absurd h0B (Nat.ne_of_gt (List.count_pos_iff.2 hmem))
      have hBt : B = b.take a.length := by
        rw [← hB]; simp only [trunc]
        rw [List.take_append_of_le_length hle]
      have hBl : ∀ c ∈ B, isLower c := by
        intro c hc; rw [hBt] at hc; exact hb c (List.mem_of_mem_take hc)
      have hperm : a.Perm B := by
        rw [List.perm_iff_count]
        intro x
        by_cases hx : x = 48
        · subst hx
          rw [List.count_eq_zero.2 h48, List.count_eq_zero.2]
          exact fun h => absurd (hBl 48 h).1 (by decide)
        · exact hc x hx
      have hs1 := hashSum_perm a B hperm
      have hs2 : hashSum b = hashSum B + hashSum (b.drop a.length) := by
        rw [hBt, ← hashSum_append, List.take_append_drop]
      have hdrop := hashSum_bounds (b.drop a.length)
        (fun c hc => hb c (List.mem_of_mem_drop hc))
      have hnil : b.drop a.length = [] := by
        apply List.eq_nil_of_length_eq_zero
        have : (0 : Int) ≤ ((b.drop a.length).length : Int) := Int.ofNat_nonneg _
        omega
      have : B = b := by
        rw [hBt]; conv_rhs => rw [← List.take_append_drop a.length b, hnil]
        simp
      rw [← this]; exact hperm

theorem isPerm_eq (g1 g2 : Nat → Nat) (a b : List Nat) (ha : ∀ c ∈ a, isLower c)
    (hb : ∀ c ∈ b, isLower c) (hla : a.length ≤ 99) (hlb : b.length ≤ 99) :
    isPerm g1 g2 a b = some (if a.Perm b then 1 else 0) := by
  have hba := hashSum_bounds a ha
  have hbb := hashSum_bounds b hb
  have hla' : (a.length : Int) ≤ 99 := by exact_mod_cast hla
  have hlb' : (b.length : Int) ≤ 99 := by exact_mod_cast hlb
  have hna : (0 : Int) ≤ (a.length : Int) := Int.ofNat_nonneg _
  have hnb : (0 : Int) ≤ (b.length : Int) := Int.ofNat_nonneg _
  unfold isPerm
  rw [hash_lower a ha, hash_lower b hb]
  simp only
  by_cases hh : wrapInt16 (hashSum a) = wrapInt16 (hashSum b)
  · have hsum : hashSum a = hashSum b :=
      wrapInt16_inj _ _ (by omega) (by omega) (by omega) (by omega) hh
    rw [if_neg (not_not.2 hh), (strcpy_stackBuf g1 a hla).1, (strcpy_stackBuf g2 b hlb).1]
    simp only
    rw [strlen_terminated a _ (lower_ne_zero a ha)]
    rw [isPerm_core a b _ _ ha hb (by rw [(strcpy_stackBuf g2 b hlb).2]; omega) hsum]
  · rw [if_pos hh]
    have : ¬ a.Perm b := fun hp => hh (by rw [hashSum_perm a b hp])
    rw [if_neg this]

/-- C1: for strings `a`, `b` of lowercase letters of length at most 99, and whatever
the scratch arrays held before, `isPerm(a, b)` returns 1 exactly when `a` and `b`
hold the same multiset of characters, and returns 0 otherwise. -/
theorem isPerm_iff_perm (g1 g2 : Nat → Nat) (a b : List Nat) (ha : ∀ c ∈ a, isLower c)
    (hb : ∀ c ∈ b, isLower c) (hla : a.length ≤ 99) (hlb : b.length ≤ 99) :
    (isPerm g1 g2 a b = some 1 ↔ a.Perm b) ∧ (isPerm g1 g2 a b = some 0 ↔ ¬ a.Perm b) := by
  rw [isPerm_eq g1 g2 a b ha hb hla hlb]
  by_cases hp : a.Perm b
  · simp [hp]
  · simp [hp]

/-- The words "ad" and "bc" share the hash sum 24 and are told apart by `isPerm`,
for any old contents `g1`, `g2` of the scratch arrays. -/
theorem isPerm_iff_perm_witness :
    ((∀ c ∈ str "ad", isLower c) ∧ (∀ c ∈ str "bc", isLower c) ∧
      (str "ad").length ≤ 99 ∧ (str "bc").length ≤ 99) ∧
    hash (str "ad") = some 24 ∧ hash (str "bc") = some 24 ∧
    ((isPerm (fun _ => 97) (fun _ => 100) (str "ad") (str "bc") = some 1 ↔
        (str "ad").Perm (str "bc")) ∧
     (isPerm (fun _ => 97) (fun _ => 100) (str "ad") (str "bc") = some 0 ↔
        ¬ (str "ad").Perm (str "bc"))) :=
  ⟨by decide, by decide, by decide,
   isPerm_iff_perm (fun _ => 97) (fun _ => 100) (str "ad") (str "bc") (by decide) (by decide)
      (by decide) (by decide)⟩

theorem isPerm_dog_god (g1 g2 : Nat → Nat) : isPerm g1 g2 (str "dog") (str "god") = some 1 := by
  rw [isPerm_eq g1 g2 _ _ (by decide) (by decide) (by decide) (by decide)]; decide

theorem isPerm_dog_cat (g1 g2 : Nat → Nat) : isPerm g1 g2 (str "dog") (str "cat") = some 0 := by
  rw [isPerm_eq g1 g2 _ _ (by decide) (by decide) (by decide) (by decide)]; decide

theorem isPerm_ad_bc (g1 g2 : Nat → Nat) : isPerm g1 g2 (str "ad") (str "bc") = some 0 := by
  rw [isPerm_eq g1 g2 _ _ (by decide) (by decide) (by decide) (by decide)]; decide

/-- A longer first string whose hash collides with a shorter second one: old stack
bytes that look like letters of the first string do not make `isPerm` accept. -/
theorem isPerm_aaaa_bd :
    hash (str "aaaa") = hash (str "bd") ∧
      isPerm (fun _ => 97) (fun _ => 97) (str "aaaa") (str "bd") = some 0 := by
  decide

/-- C2: for a word `w` of lowercase letters and a permutation `s` of its letters,
`hash(s) = hash(w)`, and `hash(w)` is the sum of the table entries `hashKey[c - 97]`
of its characters, as held in the 16-bit `int`. -/
theorem hash_perm (w s : List Nat) (hw : ∀ c ∈ w, isLower c) (hs : s.Perm w) :
    hash s = hash w ∧ hash w = some (wrapInt16 ((w.map weight).sum)) ∧
      ∀ c ∈ w, hashKey[c - 97]? = some (weight c) := by
  have hs' : ∀ c ∈ s, isLower c := fun c hc => hw c (hs.mem_iff.1 hc)
  refine ⟨?_, hash_lower w hw, ?_⟩
  · rw [hash_lower w hw, hash_lower s hs', hashSum_perm s w hs]
  · intro c hc
    have h := (hashKeyAt_lower c (hw c hc)).1
    unfold hashKeyAt at h
    rw [if_pos (hw c hc).1] at h
    exact h

theorem hash_perm_witness :
    ((∀ c ∈ str "dog", isLower c) ∧ (str "god").Perm (str "dog")) ∧
      hash (str "god") = hash (str "dog") :=
  ⟨by decide, (hash_perm (str "dog") (str "god") (by decide) (by decide)).1⟩

/-! ## Theorems: the submit branch -/

theorem dict_facts :
    ∀ i, i < 30 → (∀ c ∈ dict.getD i [], isLower c) ∧ (dict.getD i []).length ≤ 99 ∧
      hash (dict.getD i []) = some (dictHash.getD i 0) := by
  decide

theorem dict_eq_map : (List.range dictSize).map (fun i => dict.getD i []) = dict := by
  decide

theorem set_terminator (l w : List Nat) (hl : w.length < l.length)
    (hw : l.take w.length = w) : l.set w.length 0 = w ++ 0 :: l.drop (w.length + 1) := by
  rw [List.set_eq_take_append_cons_drop, if_pos hl, hw]

/-- One round of the dictionary loop on a buffer that holds the lowercase word `w`. -/
theorem submitBody_eq (g1 g2 : Nat → Nat → Nat) (w : List Nat) (hw : ∀ c ∈ w, isLower c)
    (hlen : w.length ≤ 99) (s : State) (hs : cstr s.input = w) (i : Nat) (hi : i < 30) :
    submitBody g1 g2 (wrapInt16 (hashSum w)) s i =
      some (if w.Perm (dict.getD i []) then
          { s with lcd := s.lcd ++ [LcdOp.gotoxy 0 1, LcdOp.puts (dict.getD i [])],
                   matchCount := wrapInt16 (s.matchCount + 1) }
        else s) := by
  obtain ⟨hd, hdl, hdh⟩ := dict_facts i hi
  unfold submitBody
  rw [hs, isPerm_eq (g1 i) (g2 i) w _ hw hd hlen hdl]
  by_cases hp : w.Perm (dict.getD i [])
  · have hh : wrapInt16 (hashSum w) = dictHash.getD i 0 := by
      have h1 := hash_lower _ hd
      rw [hdh] at h1
      rw [Option.some.inj h1, hashSum_perm w _ hp]
    rw [if_pos hh, if_pos hp, if_pos hp]
    rfl
  · rw [if_neg hp, if_neg hp]
    by_cases hh : wrapInt16 (hashSum w) = dictHash.getD i 0
    · rw [if_pos hh]; rfl
    · rw [if_neg hh]

theorem submit_fold (g1 g2 : Nat → Nat → Nat) (w : List Nat) (hw : ∀ c ∈ w, isLower c)
    (hlen : w.length ≤ 99) (l : List Nat) (hl : ∀ i ∈ l, i < 30) (s : State)
    (hs : cstr s.input = w) :
    ∃ s', l.foldlM (submitBody g1 g2 (wrapInt16 (hashSum w))) s = some s' ∧
      s'.lcd = s.lcd ++
        reportOps ((l.map (fun i => dict.getD i [])).filter (fun d => decide (w.Perm d))) ∧
      s'.input = s.input := by
  induction l generalizing s with
  | nil => exact ⟨s, rfl, by simp [reportOps], rfl⟩
  | cons i is ih =>
    have hi := hl i (List.mem_cons_self _ _)
    have his : ∀ j ∈ is, j < 30 := fun j hj => hl j (List.mem_cons_of_mem _ hj)
    simp only [List.foldlM_cons, submitBody_eq g1 g2 w hw hlen s hs i hi,
      Option.bind_eq_bind, Option.some_bind]
    by_cases hp : w.Perm (dict.getD i [])
    · rw [if_pos hp]
      obtain ⟨s', h1, h2, h3⟩ := ih his
        { s with lcd := s.lcd ++ [LcdOp.gotoxy 0 1, LcdOp.puts (dict.getD i [])],
                 matchCount := wrapInt16 (s.matchCount + 1) } hs
      refine ⟨s', h1, ?_, h3⟩
      rw [h2]
      simp only [reportOps, List.map_cons, List.filter_cons, hp, decide_True, if_true,
        List.flatten_cons, List.append_assoc]
    · rw [if_neg hp]
      obtain ⟨s', h1, h2, h3⟩ := ih his s hs
      refine ⟨s', h1, ?_, h3⟩
      rw [h2]
      simp only [reportOps, List.map_cons, List.filter_cons, hp, decide_False]
      rfl

/-- The dictionary loop on a buffer that holds the lowercase word `w`: it returns, and
what it adds to the display record is the report of the anagrams of `w`. -/
theorem submitLoop_reports (g1 g2 : Nat → Nat → Nat) (s : State) (w : List Nat)
    (hw : ∀ c ∈ w, isLower c) (hlen : w.length ≤ 10) (hwl : s.wlength = w.length)
    (hil : s.input.length = 11) (hin : s.input.take w.length = w) :
    ∃ s2, submitLoop g1 g2 s = some s2 ∧ s2.lcd = s.lcd ++ reportOps (anagrams w) := by
  have hset : s.input.set w.length 0 = w ++ 0 :: s.input.drop (w.length + 1) :=
    set_terminator s.input w (by omega) hin
  have hcs : cstr (s.input.set w.length 0) = w := by
    rw [hset]; exact cstr_terminated w _ (lower_ne_zero w hw)
  obtain ⟨s2, h1, h2, _⟩ := submit_fold g1 g2 w hw (by omega) (List.range dictSize)
    (fun i hi => List.mem_range.1 hi) { s with input := s.input.set w.length 0 } hcs
  have hloop : submitLoop g1 g2 s = some s2 := by
    unfold submitLoop
    rw [if_pos (by rw [hwl]; omega)]
    have htn : s.wlength.toNat = w.length := by rw [hwl]; exact Int.toNat_ofNat _
    simp only [htn, hcs, hash_lower w hw]
    exact h1
  rw [dict_eq_map] at h2
  exact ⟨s2, hloop, h2⟩

theorem anagrams_dog : anagrams (str "dog") = [str "god", str "dog"] := by decide

theorem compose_dog :
    (run init dogEvents).map (fun s => (s.wlength, s.input, s.count)) =
      some (3, str "dog" ++ List.replicate 8 0, [0, 0, 0, 0, 0, 0, 0, 0]) := by
  decide

theorem submit_dog_reports :
    (run init (dogEvents ++ [Event.submit zeroStack zeroStack noTicks])).map
        (fun s => (putsWords s.lcd, s.matchCount)) =
      some ([str "god", str "dog"], 2) := by
  decide

theorem submit_twice_reports :
    (run init (dogEvents ++ [Event.submit zeroStack zeroStack noTicks,
        Event.submit zeroStack zeroStack noTicks])).map
        (fun s => (putsWords s.lcd, s.matchCount)) =
      some ([str "god", str "dog"], 2) := by
  decide

/-! ## Theorems: the keypad state machine -/

/-- A loop over `0..n-1` whose body always returns keeps a step-indexed invariant. -/
theorem foldlM_range_total {α : Type} (f : α → Nat → Option α) (P : Nat → α → Prop) (n : Nat)
    (s : α) (h0 : P 0 s)
    (hstep : ∀ i t, i < n → P i t → ∃ t', f t i = some t' ∧ P (i + 1) t') :
    ∃ s', (List.range n).foldlM f s = some s' ∧ P n s' := by
  induction n with
  | zero => exact ⟨s, rfl, h0⟩
  | succ n ih =>
    obtain ⟨t, ht, hP⟩ := ih (fun i t hi hp => hstep i t (Nat.lt_succ_of_lt hi) hp)
    obtain ⟨t', ht', hP'⟩ := hstep n t (Nat.lt_succ_self n) hP
    refine ⟨t', ?_, hP'⟩
    rw [List.range_succ, List.foldlM_append, ht]
    simp [ht']

/-- Whenever a loop over a list returns, an invariant of its body holds at the end. -/
theorem foldlM_inv {α β : Type} (f : α → β → Option α) (P : α → Prop) (l : List β)
    (hstep : ∀ x t t', x ∈ l → P t → f t x = some t' → P t') (s s' : α) (h0 : P s)
    (hr : l.foldlM f s = some s') : P s' := by
  induction l generalizing s with
  | nil =>
    simp only [List.foldlM_nil] at hr
    cases hr
    exact h0
  | cons x xs ih =>
    simp only [List.foldlM_cons, Option.bind_eq_bind] at hr
    cases hx : f s x with
    | none => rw [hx] at hr; simp at hr
    | some t =>
      rw [hx] at hr
      exact ih (fun y u u' hy => hstep y u u' (List.mem_cons_of_mem _ hy)) t
        (hstep x s t (List.mem_cons_self _ _) h0 hx) hr

theorem transmit_inPlace (c : Nat) (s : State) :
    transmit c 1 s =
      some { s with lcd := s.lcd ++ [LcdOp.gotoxy s.wlength 0] ++
                      [LcdOp.putc c, LcdOp.gotoxy s.wlength 0] } := by
  simp [transmit]

theorem transmit_commit (c : Nat) (s : State) (h0 : 0 ≤ s.wlength) (h1 : s.wlength < 11) :
    transmit c 0 s =
      some { s with input := s.input.set s.wlength.toNat c,
                    wlength := s.wlength + 1,
                    lcd := s.lcd ++ [LcdOp.gotoxy s.wlength 0] ++
                      [LcdOp.putc c, LcdOp.gotoxy (s.wlength + 1) 0] } := by
  have hw : wrapChar (s.wlength + 1) = s.wlength + 1 := by unfold wrapChar; omega
  simp [transmit, h0, h1, hw]

/-- Loop body of `set_timer` at the index of another key that is not pending. -/
theorem set_timer_body_skip (s : State) (i : Nat) (hi : i ≠ s.key - 1)
    (hc : s.count.getD i 0 = 0) : set_timer_body s i = some s := by
  unfold set_timer_body
  rw [if_pos hi, if_neg (not_not.2 hc)]

/-- Loop body of `set_timer` at the index of the pressed key, no backspace trigger:
the candidate character is echoed in place. -/
theorem set_timer_body_echo (s : State) (i : Nat) (hi : i = s.key - 1)
    (hb : ¬ (s.key = 7 ∧ s.count.getD (s.key - 1) 0 % 3 = 0)) :
    set_timer_body s i =
      some { s with character := keyChar i (s.count.getD i 0),
                    lcd := s.lcd ++ [LcdOp.gotoxy s.wlength 0] ++
                      [LcdOp.putc (keyChar i (s.count.getD i 0)),
                       LcdOp.gotoxy s.wlength 0] } := by
  unfold set_timer_body
  rw [if_neg (not_not.2 hi), if_neg hb]
  simp only
  rw [transmit_inPlace]

/-- Loop body of `set_timer` at the index of key 7 on a backspace trigger. -/
theorem set_timer_body_backspace (s : State) (i : Nat) (hi : i = s.key - 1)
    (hb : s.key = 7 ∧ s.count.getD (s.key - 1) 0 % 3 = 0) :
    set_timer_body s i =
      some { s with wlength := wrapChar (s.wlength - 1),
                    count := s.count.set (s.key - 1) 0,
                    isBackspacePressed := 1,
                    lcd := s.lcd ++ [LcdOp.gotoxy s.wlength 0] ++
                      [LcdOp.putc 32, LcdOp.gotoxy s.wlength 0] ++
                      [LcdOp.gotoxy (wrapChar (s.wlength - 1)) 0] ++
                      [LcdOp.putc 32, LcdOp.gotoxy (wrapChar (s.wlength - 1)) 0] } := by
  unfold set_timer_body
  rw [if_neg (not_not.2 hi), if_pos hb]
  simp [transmit_inPlace]

/-- Loop body of `set_timer` at the index of another key that is pending: its
character is committed and its count cleared. -/
theorem set_timer_body_flush (s : State) (i : Nat) (hi : i ≠ s.key - 1)
    (hc : s.count.getD i 0 ≠ 0) (h0 : 0 ≤ s.wlength) (h1 : s.wlength < 11) :
    set_timer_body s i =
      some { s with character := keyChar i (s.count.getD i 0),
                    input := s.input.set s.wlength.toNat (keyChar i (s.count.getD i 0)),
                    wlength := s.wlength + 1,
                    count := s.count.set i 0,
                    lcd := s.lcd ++ [LcdOp.gotoxy s.wlength 0] ++
                      [LcdOp.putc (keyChar i (s.count.getD i 0)),
                       LcdOp.gotoxy (s.wlength + 1) 0] } := by
  unfold set_timer_body
  rw [if_pos hi, if_pos hc]
  simp only
  rw [transmit_commit (keyChar i (s.count.getD i 0))
    { s with character := keyChar i (s.count.getD i 0) } h0 h1]
  rfl

/-- When no other key is pending, the loop of `set_timer` does what its body does at
the index of the pressed key. -/
theorem set_timer_loop_single (u u' : State) (hj : u.key - 1 < 8)
    (hz : ∀ i, i ≠ u.key - 1 → u.count.getD i 0 = 0)
    (hb : set_timer_body u (u.key - 1) = some u') (hk : u'.key = u.key)
    (hz' : ∀ i, i ≠ u.key - 1 → u'.count.getD i 0 = 0) :
    (List.range 8).foldlM set_timer_body u = some u' := by
  obtain ⟨r, hr, hP⟩ := foldlM_range_total set_timer_body
    (fun m t => t = if u.key - 1 < m then u' else u) 8 u (by simp)
    (by
      intro i t _ ht
      have ht' : t = if u.key - 1 < i then u' else u := ht
      rcases Nat.lt_trichotomy i (u.key - 1) with hlt | heq | hgt
      · rw [if_neg (by omega)] at ht'
        subst ht'
        refine ⟨t, set_timer_body_skip t i (by omega) (hz i (by omega)), ?_⟩
        show t = if t.key - 1 < i + 1 then u' else t
        rw [if_neg (by omega)]
      · rw [if_neg (by omega)] at ht'
        subst ht'
        refine ⟨u', by rw [heq]; exact hb, ?_⟩
        show u' = if t.key - 1 < i + 1 then u' else t
        rw [if_pos (by omega)]
      · rw [if_pos hgt] at ht'
        subst ht'
        refine ⟨t, set_timer_body_skip t i (by rw [hk]; omega) (hz' i (by omega)), ?_⟩
        show t = if u.key - 1 < i + 1 then t else u
        rw [if_pos (by omega)])
  have hP' : r = if u.key - 1 < 8 then u' else u := hP
  rw [if_pos hj] at hP'
  rw [hr, hP']

/-- A press of key `k` while no other key is pending, and that is not a backspace
trigger: the count of `k` goes up by one (in an `unsigned char`), the new candidate
character is echoed in place, nothing is committed. -/
theorem set_timer_same (k : Nat) (hk1 : 1 ≤ k) (hk7 : k ≤ 7) (t : State)
    (hlen : t.count.length = 8) (hz : ∀ i, i ≠ k - 1 → t.count.getD i 0 = 0)
    (hbs : ¬ (k = 7 ∧ wrapUChar ((t.count.getD (k - 1) 0 : Int) + 1) % 3 = 0)) :
    set_timer { t with key := k } =
      some { t with key := k,
                    count := t.count.set (k - 1) (wrapUChar ((t.count.getD (k - 1) 0 : Int) + 1)),
                    character := keyChar (k - 1) (wrapUChar ((t.count.getD (k - 1) 0 : Int) + 1)),
                    TCCR0 := 5, TCNT0 := 4,
                    lcd := t.lcd ++ [LcdOp.gotoxy t.wlength 0] ++
                      [LcdOp.putc (keyChar (k - 1)
                          (wrapUChar ((t.count.getD (k - 1) 0 : Int) + 1))),
                       LcdOp.gotoxy t.wlength 0] } := by
  unfold set_timer
  simp only
  rw [if_pos ⟨hk1, by omega⟩]
  have hself : (t.count.set (k - 1) (wrapUChar ((t.count.getD (k - 1) 0 : Int) + 1))).getD
      (k - 1) 0 = wrapUChar ((t.count.getD (k - 1) 0 : Int) + 1) :=
    getD_set_self _ _ _ (by omega)
  rw [set_timer_loop_single _ _ (by simp only; omega)
    (by intro i hi; simp only at hi ⊢; rw [getD_set_other _ _ _ _ (Ne.symm hi)]; exact hz i hi)
    (set_timer_body_echo _ _ rfl (by simp only; rw [hself]; exact hbs)) rfl
    (by intro i hi; simp only at hi ⊢; rw [getD_set_other _ _ _ _ (Ne.symm hi)]; exact hz i hi)]
  simp only [Option.map_some', hself]

/-- The third press in a row of key 7 (the count reaches a multiple of 3) while no
other key is pending: `wlength` is decremented, the count of key 7 is cleared and
`isBackspacePressed` is set. -/
theorem set_timer_backspace (t : State) (hlen : t.count.length = 8)
    (hz : ∀ i, i ≠ 6 → t.count.getD i 0 = 0)
    (hbs : wrapUChar ((t.count.getD 6 0 : Int) + 1) % 3 = 0) :
    set_timer { t with key := 7 } =
      some { t with key := 7,
                    count := (t.count.set 6 (wrapUChar ((t.count.getD 6 0 : Int) + 1))).set 6 0,
                    wlength := wrapChar (t.wlength - 1),
                    isBackspacePressed := 1,
                    TCCR0 := 5, TCNT0 := 4,
                    lcd := t.lcd ++ [LcdOp.gotoxy t.wlength 0] ++
                      [LcdOp.putc 32, LcdOp.gotoxy t.wlength 0] ++
                      [LcdOp.gotoxy (wrapChar (t.wlength - 1)) 0] ++
                      [LcdOp.putc 32, LcdOp.gotoxy (wrapChar (t.wlength - 1)) 0] } := by
  unfold set_timer
  simp only
  rw [if_pos (by decide)]
  have hself : (t.count.set 6 (wrapUChar ((t.count.getD 6 0 : Int) + 1))).getD 6 0 =
      wrapUChar ((t.count.getD 6 0 : Int) + 1) :=
    getD_set_self _ _ _ (by omega)
  rw [set_timer_loop_single _ _ (by simp only; omega)
    (by intro i hi; simp only at hi ⊢; rw [getD_set_other _ _ _ _ (Ne.symm hi)]; exact hz i hi)
    (set_timer_body_backspace _ _ rfl ⟨rfl, by
      show (t.count.set 6 (wrapUChar ((t.count.getD 6 0 : Int) + 1))).getD 6 0 % 3 = 0
      rw [hself]; exact hbs⟩) rfl
    (by
      intro i hi; simp only at hi ⊢
      rw [getD_set_other _ _ _ _ (Ne.symm hi), getD_set_other _ _ _ _ (Ne.symm hi)]
      exact hz i hi)]
  simp only [Option.map_some']

/-! ### The overflow handler -/

theorem resetCount_eq (c : List Nat) (h : c.length = 8) : resetCount c = List.replicate 8 0 := by
  rcases c with _ | ⟨a0, _ | ⟨a1, _ | ⟨a2, _ | ⟨a3, _ | ⟨a4, _ | ⟨a5, _ | ⟨a6, _ | ⟨a7, _ | ⟨x, xs⟩⟩⟩⟩⟩⟩⟩⟩⟩ <;>
    simp at h
  rfl

/-- With at most the entry `j` non-zero, the first loop of the handler picks the
character of key `j + 1`, or keeps `character` when that entry is zero as well. -/
theorem resolveChar_single (c : List Nat) (ch j : Nat) (hj : j < 8)
    (hz : ∀ i, i ≠ j → c.getD i 0 = 0) :
    resolveChar c ch = if c.getD j 0 ≠ 0 then keyChar j (c.getD j 0) else ch := by
  unfold resolveChar
  have key : ∀ n, (List.range n).foldl
      (fun x i => if c.getD i 0 ≠ 0 then keyChar i (c.getD i 0) else x) ch =
      if j < n ∧ c.getD j 0 ≠ 0 then keyChar j (c.getD j 0) else ch := by
    intro n
    induction n with
    | zero => simp
    | succ n ih =>
      rw [List.range_succ, List.foldl_append, ih]
      simp only [List.foldl_cons, List.foldl_nil]
      by_cases hn : n = j
      · subst hn
        by_cases h0 : c.getD n 0 = 0
        · simp [h0]
        · simp [h0]
      · rw [if_neg (not_not.2 (hz n hn))]
        have : (j < n + 1 ∧ c.getD j 0 ≠ 0) ↔ (j < n ∧ c.getD j 0 ≠ 0) := by
          constructor
          · rintro ⟨a, b⟩; exact ⟨by omega, b⟩
          · rintro ⟨a, b⟩; exact ⟨by omega, b⟩
        simp only [this]
  rw [key 8]
  simp [hj]

/-- An overflow that does not yet resolve only counts. -/
theorem step_overflow_tick (s : State) (hrun : s.TCCR0 ≠ 0) (ht : s.timer_count < 3) :
    step s Event.overflow = some { s with TCNT0 := 4, timer_count := s.timer_count + 1 } := by
  have h1 : ¬ (s.timer_count + 1) % 4 = 0 := by omega
  have h2 : wrapUChar ((s.timer_count : Int) + 1) = s.timer_count + 1 := by
    unfold wrapUChar; omega
  simp only [step, SIG_OVERFLOW0, if_neg hrun, if_neg h1, h2]

/-- The overflow that resolves, with no suppression and a store inside the buffer:
the character is committed and the machine is reset. -/
theorem step_overflow_commit (s : State) (hrun : s.TCCR0 ≠ 0) (ht : s.timer_count = 3)
    (hbs : s.isBackspacePressed = 0) (h0 : 0 ≤ s.wlength) (h1 : s.wlength < 11)
    (hlen : s.count.length = 8) :
    step s Event.overflow =
      some { s with character := resolveChar s.count s.character,
                    input := s.input.set s.wlength.toNat (resolveChar s.count s.character),
                    wlength := s.wlength + 1,
                    count := List.replicate 8 0, TCCR0 := 0, timer_count := 0,
                    lcd := s.lcd ++ [LcdOp.gotoxy s.wlength 0] ++
                      [LcdOp.putc (resolveChar s.count s.character),
                       LcdOp.gotoxy (s.wlength + 1) 0] } := by
  simp only [step, SIG_OVERFLOW0, if_neg hrun]
  rw [if_pos (by rw [ht]), if_pos hbs,
    transmit_commit _ { s with character := resolveChar s.count s.character } h0 h1]
  simp only [Option.map_some', resetCount_eq _ hlen]

/-- The overflow that resolves after a backspace trigger: nothing is committed, the
flag is cleared and the machine is reset. -/
theorem step_overflow_suppressed (s : State) (hrun : s.TCCR0 ≠ 0) (ht : s.timer_count = 3)
    (hbs : s.isBackspacePressed ≠ 0) (hlen : s.count.length = 8) :
    step s Event.overflow =
      some { s with character := resolveChar s.count s.character,
                    isBackspacePressed := 0,
                    count := List.replicate 8 0, TCCR0 := 0, timer_count := 0 } := by
  simp only [step, SIG_OVERFLOW0, if_neg hrun]
  rw [if_pos (by rw [ht]), if_neg hbs]
  simp only [Option.map_some', resetCount_eq _ hlen]

theorem run_append (s : State) (es fs : List Event) :
    run s (es ++ fs) = (run s es).bind (fun t => run t fs) := by
  unfold run
  rw [List.foldlM_append]
  rfl

theorem run_cons (s : State) (e : Event) (es : List Event) :
    run s (e :: es) = (step s e).bind (fun t => run t es) := by
  unfold run
  rw [List.foldlM_cons]
  rfl

theorem run_nil (s : State) : run s [] = some s := rfl

/-- From `timer_count = 0` with the timer running, three overflows only count. -/
theorem run_three_ticks (s : State) (hrun : s.TCCR0 ≠ 0) (ht : s.timer_count = 0) :
    run s (List.replicate 3 Event.overflow) = some { s with TCNT0 := 4, timer_count := 3 } := by
  have e : List.replicate 3 Event.overflow =
      [Event.overflow, Event.overflow, Event.overflow] := rfl
  rw [e, run_cons, step_overflow_tick s hrun (by omega), Option.some_bind, run_cons,
    step_overflow_tick { s with TCNT0 := 4, timer_count := s.timer_count + 1 } hrun
      (by simp only; omega),
    Option.some_bind, run_cons,
    step_overflow_tick { s with TCNT0 := 4, timer_count := s.timer_count + 1 + 1 } hrun
      (by simp only; omega),
    Option.some_bind, run_nil]
  simp only [ht]

/-! ### Repeated presses of one key -/

theorem getD_replicate_zero (i : Nat) : (List.replicate 8 (0 : Nat)).getD i 0 = 0 := by
  by_cases h : i < 8
  · rw [List.getD_eq_getElem _ _ (by simpa using h), List.getElem_replicate]
  · rw [List.getD_eq_default _ _ (by simpa using h)]

theorem replicate_set_zero (j : Nat) :
    (List.replicate 8 (0 : Nat)).set j 0 = List.replicate 8 0 := by
  rcases Nat.lt_or_ge j 8 with h | h
  · interval_cases j <;> rfl
  · exact List.set_eq_of_length_le (by simpa using h)

theorem single_getD_other (j c i : Nat) (h : i ≠ j) :
    ((List.replicate 8 (0 : Nat)).set j c).getD i 0 = 0 := by
  rw [getD_set_other _ _ _ _ (Ne.symm h)]; exact getD_replicate_zero i

theorem single_getD_self (j c : Nat) (h : j < 8) :
    ((List.replicate 8 (0 : Nat)).set j c).getD j 0 = c :=
  getD_set_self _ _ _ (by simpa using h)

/-- One more press of the pending key, not a backspace trigger. -/
theorem press_pending (k c : Nat) (hk1 : 1 ≤ k) (hk7 : k ≤ 7) (s0 t : State)
    (hc : t.count = (List.replicate 8 0).set (k - 1) c)
    (hf : t.wlength = s0.wlength ∧ t.input = s0.input ∧ t.timer_count = s0.timer_count ∧
      t.isBackspacePressed = s0.isBackspacePressed ∧ t.matchCount = s0.matchCount)
    (hbs : ¬ (k = 7 ∧ wrapUChar ((c : Int) + 1) % 3 = 0)) :
    ∃ t', step t (Event.press k) = some t' ∧ Pending k (wrapUChar ((c : Int) + 1)) s0 t' := by
  have hself : t.count.getD (k - 1) 0 = c := by rw [hc]; exact single_getD_self _ _ (by omega)
  have hz : ∀ i, i ≠ k - 1 → t.count.getD i 0 = 0 := by
    intro i hi; rw [hc]; exact single_getD_other _ _ _ hi
  have hlen : t.count.length = 8 := by rw [hc]; simp
  have h := set_timer_same k hk1 hk7 t hlen hz (by rw [hself]; exact hbs)
  rw [hself] at h
  refine ⟨_, by simp only [step]; rw [if_pos ⟨hk1, hk7⟩]; exact h, ?_⟩
  refine ⟨?_, rfl, rfl, hf.1, hf.2.1, hf.2.2.1, hf.2.2.2.1, hf.2.2.2.2⟩
  simp only [hc, List.set_set]

theorem wrapUChar_succ (c : Nat) : wrapUChar ((c : Int) + 1) = (c + 1) % 256 := by
  unfold wrapUChar; omega

/-- Presses of a letter key `k` (1..6), `n + 1` in a row, from a state with no key
pending: the count of `k` is `(n + 1) mod 256`, nothing is committed. -/
theorem run_presses_letter (k : Nat) (hk1 : 1 ≤ k) (hk6 : k ≤ 6) (s : State)
    (hcount : s.count = List.replicate 8 0) (n : Nat) :
    ∃ t, run s (List.replicate (n + 1) (Event.press k)) = some t ∧
      Pending k ((n + 1) % 256) s t := by
  induction n with
  | zero =>
    obtain ⟨t', h1, h2⟩ := press_pending k 0 hk1 (by omega) s s
      (by rw [hcount, replicate_set_zero])
      ⟨rfl, rfl, rfl, rfl, rfl⟩ (by omega)
    refine ⟨t', ?_, ?_⟩
    · show run s [Event.press k] = some t'
      rw [run_cons, h1, Option.some_bind, run_nil]
    · rw [wrapUChar_succ] at h2; exact h2
  | succ n ih =>
    obtain ⟨t, h1, h2⟩ := ih
    obtain ⟨t', h3, h4⟩ := press_pending k ((n + 1) % 256) hk1 (by omega) s t h2.1
      ⟨h2.2.2.2.1, h2.2.2.2.2.1, h2.2.2.2.2.2.1, h2.2.2.2.2.2.2.1, h2.2.2.2.2.2.2.2⟩ (by omega)
    refine ⟨t', ?_, ?_⟩
    · rw [List.replicate_succ', run_append, h1, Option.some_bind, run_cons, h3,
        Option.some_bind, run_nil]
    · rw [wrapUChar_succ] at h4
      have : ((n + 1) % 256 + 1) % 256 = (n + 1 + 1) % 256 := by omega
      rw [this] at h4; exact h4

/-- Presses of key 7, one or two in a row, from a state with no key pending. -/
theorem run_presses_seven (s : State) (hcount : s.count = List.replicate 8 0) (n : Nat)
    (hn : n = 1 ∨ n = 2) :
    ∃ t, run s (List.replicate n (Event.press 7)) = some t ∧ Pending 7 n s t := by
  obtain ⟨t1, h1, h2⟩ := press_pending 7 0 (by decide) (by decide) s s
    (by rw [hcount, replicate_set_zero]) ⟨rfl, rfl, rfl, rfl, rfl⟩ (by decide)
  rcases hn with hn | hn
  · subst hn
    refine ⟨t1, ?_, h2⟩
    show run s [Event.press 7] = some t1
    rw [run_cons, h1, Option.some_bind, run_nil]
  · subst hn
    obtain ⟨t2, h3, h4⟩ := press_pending 7 1 (by decide) (by decide) s t1 h2.1
      ⟨h2.2.2.2.1, h2.2.2.2.2.1, h2.2.2.2.2.2.1, h2.2.2.2.2.2.2.1, h2.2.2.2.2.2.2.2⟩ (by decide)
    refine ⟨t2, ?_, h4⟩
    show run s [Event.press 7, Event.press 7] = some t2
    rw [run_cons, h1, Option.some_bind, run_cons, h3, Option.some_bind, run_nil]

/-- The time-out of a pending key: four overflows from `timer_count = 0` commit the
character that the last press echoed and reset the machine. -/
theorem run_timeout_pending (k c : Nat) (hk1 : 1 ≤ k) (hk7 : k ≤ 7) (s t : State)
    (hp : Pending k c s t) (htc : s.timer_count = 0) (hbs : s.isBackspacePressed = 0)
    (h0 : 0 ≤ s.wlength) (h1 : s.wlength ≤ 10) :
    ∃ t', run t (List.replicate 4 Event.overflow) = some t' ∧
      t'.wlength = s.wlength + 1 ∧
      t'.input = s.input.set s.wlength.toNat (keyChar (k - 1) c) ∧
      t'.count = List.replicate 8 0 ∧ t'.timer_count = 0 ∧ t'.isBackspacePressed = 0 ∧
      t'.TCCR0 = 0 ∧ t'.matchCount = s.matchCount := by
  obtain ⟨hc, hch, hrun, hwl, hin, ht, hb, hm⟩ := hp
  have hrun' : t.TCCR0 ≠ 0 := by rw [hrun]; decide
  have hres : resolveChar t.count t.character = keyChar (k - 1) c := by
    rw [resolveChar_single t.count t.character (k - 1) (by omega)
      (by intro i hi; rw [hc]; exact single_getD_other _ _ _ hi)]
    rw [hc, single_getD_self _ _ (by omega), hch]
    split <;> rfl
  have e : List.replicate 4 Event.overflow =
      List.replicate 3 Event.overflow ++ [Event.overflow] := rfl
  rw [e, run_append, run_three_ticks t hrun' (by rw [ht, htc]), Option.some_bind, run_cons,
    step_overflow_commit { t with TCNT0 := 4, timer_count := 3 } hrun' rfl (by rw [hb, hbs])
      (by show 0 ≤ t.wlength; rw [hwl]; exact h0)
      (by show t.wlength < 11; rw [hwl]; omega) (by show t.count.length = 8; rw [hc]; simp),
    Option.some_bind, run_nil]
  refine ⟨_, rfl, ?_, ?_, rfl, rfl, ?_, rfl, hm⟩
  · show t.wlength + 1 = s.wlength + 1
    rw [hwl]
  · show t.input.set t.wlength.toNat (resolveChar t.count t.character) = _
    rw [hres, hin, hwl]
  · show t.isBackspacePressed = 0
    rw [hb, hbs]

/-- The character of key `k` after `n` presses, when the 8-bit count has not wrapped
to zero: `tchar[k-1] + ((n-1) mod 4)`. -/
theorem keyChar_formula (k n : Nat) (hk1 : 1 ≤ k) (hk7 : k ≤ 7) (hn : n % 256 ≠ 0) :
    keyChar (k - 1) (n % 256) = tchar.getD (k - 1) 0 + (n - 1) % 4 := by
  unfold keyChar wrapUChar
  have hpos : (0 : Int) ≤ ((n % 256 : Nat) : Int) - 1 := by omega
  rw [Int.tmod_eq_emod hpos (by decide)]
  have hn1 : 1 ≤ n := by
    rcases Nat.eq_zero_or_pos n with h | h
    · subst h; exact absurd rfl hn
    · exact h
  have hcast : (((n % 256 : Nat) : Int) - 1) % 4 = (((n - 1) % 4 : Nat) : Int) := by omega
  rw [hcast]
  have hlt : (n - 1) % 4 < 4 := Nat.mod_lt _ (by decide)
  generalize (n - 1) % 4 = r at hlt ⊢
  interval_cases k <;> interval_cases r <;> rfl

/-- Where the 8-bit tap count has not wrapped to zero: from an idle state (all counts
zero, `timer_count` 0, `isBackspacePressed` 0, room for the store in the buffer),
pressing a letter key `k` in 1..6 `n` times, `n` not a multiple of 256 (or key 7 once
or twice), and then letting four timer overflows pass, appends exactly one character,
`tchar[k-1] + ((n-1) mod 4)`, and leaves the machine idle. -/
theorem multitap_resolves (k n : Nat) (s : State)
    (hkn : (1 ≤ k ∧ k ≤ 6 ∧ n % 256 ≠ 0) ∨ (k = 7 ∧ (n = 1 ∨ n = 2)))
    (hcount : s.count = List.replicate 8 0) (htc : s.timer_count = 0)
    (hbs : s.isBackspacePressed = 0) (hil : s.input.length = 11)
    (h0 : 0 ≤ s.wlength) (h1 : s.wlength ≤ 10) :
    ∃ s', run s (List.replicate n (Event.press k) ++ List.replicate 4 Event.overflow) = some s' ∧
      s'.wlength = s.wlength + 1 ∧
      s'.input = s.input.set s.wlength.toNat (tchar.getD (k - 1) 0 + (n - 1) % 4) ∧
      s'.input.length = 11 ∧
      s'.count = List.replicate 8 0 ∧ s'.timer_count = 0 ∧ s'.isBackspacePressed = 0 := by
  have main : ∃ t, run s (List.replicate n (Event.press k)) = some t ∧
      Pending k (n % 256) s t ∧ 1 ≤ k ∧ k ≤ 7 ∧ n % 256 ≠ 0 := by
    rcases hkn with ⟨hk1, hk6, hn⟩ | ⟨hk, hn⟩
    · obtain ⟨m, rfl⟩ : ∃ m, n = m + 1 := ⟨n - 1, by
        rcases Nat.eq_zero_or_pos n with h | h
        · subst h; exact absurd rfl hn
        · omega⟩
      obtain ⟨t, ht, hp⟩ := run_presses_letter k hk1 hk6 s hcount m
      exact ⟨t, ht, hp, hk1, by omega, hn⟩
    · subst hk
      obtain ⟨t, ht, hp⟩ := run_presses_seven s hcount n hn
      have hmod : n % 256 = n := by rcases hn with h | h <;> subst h <;> rfl
      rw [hmod]
      exact ⟨t, ht, hp, by decide, by decide, by rcases hn with h | h <;> subst h <;> decide⟩
  obtain ⟨t, ht, hp, hk1, hk7, hn⟩ := main
  obtain ⟨t', hr, hw, hi, hc, htc', hbs', _, _⟩ :=
    run_timeout_pending k (n % 256) hk1 hk7 s t hp htc hbs h0 h1
  refine ⟨t', ?_, hw, ?_, ?_, hc, htc', hbs'⟩
  · rw [run_append, ht, Option.some_bind, hr]
  · rw [hi, keyChar_formula k n hk1 hk7 hn]
  · rw [hi, List.length_set, hil]

/-- Key 1 pressed five times from the initial state resolves to `'a'`. -/
theorem multitap_resolves_witness :
    (((1 ≤ 1 ∧ 1 ≤ 6 ∧ 5 % 256 ≠ 0) ∨ (1 = 7 ∧ (5 = 1 ∨ 5 = 2))) ∧
      init.count = List.replicate 8 0 ∧ init.timer_count = 0 ∧ init.isBackspacePressed = 0 ∧
      init.input.length = 11 ∧ 0 ≤ init.wlength ∧ init.wlength ≤ 10) ∧
    ∃ s', run init (List.replicate 5 (Event.press 1) ++ List.replicate 4 Event.overflow) =
        some s' ∧
      s'.wlength = init.wlength + 1 ∧
      s'.input = init.input.set init.wlength.toNat (tchar.getD (1 - 1) 0 + (5 - 1) % 4) ∧
      s'.input.length = 11 ∧
      s'.count = List.replicate 8 0 ∧ s'.timer_count = 0 ∧ s'.isBackspacePressed = 0 :=
  ⟨by decide, multitap_resolves 1 5 init (by decide) rfl rfl rfl rfl (by decide) (by decide)⟩

set_option maxRecDepth 1000000 in
/-- C4 (the code at the failing input): key 1 pressed 256 times in a row from the
initial state wraps the `unsigned char` `count[0]` to 0, and the time-out commits byte
96 (the character before `'a'`), where the resolution formula
`tchar[0] + ((256-1) mod 4)` gives 100 (`'d'`). -/
theorem multitap_256_counterexample :
    (run init (List.replicate 256 (Event.press 1) ++ List.replicate 4 Event.overflow)).map
        (fun s => (s.wlength, s.input)) = some (1, 96 :: List.replicate 10 0) ∧
      tchar.getD (1 - 1) 0 + (256 - 1) % 4 = 100 := by
  decide

/-! ### Preemption -/

theorem preempt_step (a b n : Nat) (wl : Int) (inp : List Nat) (ha : a < 8) (hb : b < 7)
    (hab : a ≠ b) (hn : n ≠ 0) (h0 : 0 ≤ wl) (h1 : wl ≤ 10) (i : Nat) (t : State)
    (hP : PreemptInv a b n wl inp (keyChar a n) i t) :
    ∃ t', set_timer_body t i = some t' ∧ PreemptInv a b n wl inp (keyChar a n) (i + 1) t' := by
  obtain ⟨hkey, hlen, hcb, hoth, hdone, htodo⟩ := hP
  have hkb : t.key - 1 = b := by rw [hkey]; omega
  by_cases hia : i = a
  · subst hia
    obtain ⟨hca, hwl, hin⟩ := htodo (Nat.lt_irrefl i)
    refine ⟨_, set_timer_body_flush t i (by rw [hkb]; exact hab) (by rw [hca]; exact hn)
      (by rw [hwl]; exact h0) (by rw [hwl]; omega), ?_⟩
    refine ⟨hkey, by simp [hlen], ?_, ?_, ?_, ?_⟩
    · show (t.count.set i 0).getD b 0 = 1
      rw [getD_set_other _ _ _ _ hab]; exact hcb
    · intro j hja hjb
      show (t.count.set i 0).getD j 0 = 0
      rw [getD_set_other _ _ _ _ (Ne.symm hja)]; exact hoth j hja hjb
    · intro _
      refine ⟨?_, ?_, ?_⟩
      · show (t.count.set i 0).getD i 0 = 0
        exact getD_set_self _ _ _ (by omega)
      · show t.wlength + 1 = wl + 1
        rw [hwl]
      · show t.input.set t.wlength.toNat (keyChar i (t.count.getD i 0)) = _
        rw [hca, hwl, hin]
    · intro h; exact absurd (Nat.lt_succ_self i) h
  · have hiff : a < i + 1 ↔ a < i := by omega
    by_cases hib : i = b
    · subst hib
      refine ⟨_, set_timer_body_echo t i hkb.symm (by
        rw [hkb, hcb]; rintro ⟨_, h⟩; exact absurd h (by decide)), ?_⟩
      exact ⟨hkey, hlen, hcb, hoth, fun h => hdone (hiff.1 h), fun h => htodo (fun h' => h (hiff.2 h'))⟩
    · refine ⟨t, set_timer_body_skip t i (by rw [hkb]; exact hib) (hoth i hia hib), ?_⟩
      exact ⟨hkey, hlen, hcb, hoth, fun h => hdone (hiff.1 h), fun h => htodo (fun h' => h (hiff.2 h'))⟩

/-- C5: in a state where key `A` is the only key with a non-zero tap count `n`, a
press of another key `B` at once appends `tchar[A-1] + ((n-1) mod 4)` to the word
buffer (`wlength` grows by one), clears `count[A-1]` and leaves `count[B-1] = 1`. -/
theorem preempt_flush (A B n : Nat) (s : State) (hA1 : 1 ≤ A) (hA7 : A ≤ 7) (hB1 : 1 ≤ B)
    (hB7 : B ≤ 7) (hAB : A ≠ B) (hn1 : 1 ≤ n) (hn2 : n ≤ 255)
    (hcount : s.count = (List.replicate 8 0).set (A - 1) n) (hil : s.input.length = 11)
    (h0 : 0 ≤ s.wlength) (h1 : s.wlength ≤ 10) :
    ∃ s', set_timer { s with key := B } = some s' ∧
      s'.wlength = s.wlength + 1 ∧
      s'.input = s.input.set s.wlength.toNat (tchar.getD (A - 1) 0 + (n - 1) % 4) ∧
      s'.input.length = 11 ∧
      s'.count.getD (A - 1) 0 = 0 ∧ s'.count.getD (B - 1) 0 = 1 ∧
      s'.count = (List.replicate 8 0).set (B - 1) 1 := by
  have hab : A - 1 ≠ B - 1 := by omega
  have hcb : s.count.getD (B - 1) 0 = 0 := by
    rw [hcount]; exact single_getD_other _ _ _ (Ne.symm hab)
  have hone : wrapUChar ((s.count.getD (B - 1) 0 : Int) + 1) = 1 := by rw [hcb]; rfl
  have hlen : s.count.length = 8 := by rw [hcount]; simp
  have hkc : keyChar (A - 1) n = tchar.getD (A - 1) 0 + (n - 1) % 4 := by
    have h := keyChar_formula A n hA1 hA7 (by omega)
    rw [Nat.mod_eq_of_lt (by omega : n < 256)] at h
    exact h
  obtain ⟨r, hr, hP⟩ := foldlM_range_total set_timer_body
    (PreemptInv (A - 1) (B - 1) n s.wlength s.input (keyChar (A - 1) n)) 8
    { s with key := B, TCCR0 := 0, count := s.count.set (B - 1) 1 }
    ⟨by show B = B - 1 + 1; omega, by simp [hlen],
     getD_set_self _ _ _ (by omega),
     by
      intro i hia hib
      show (s.count.set (B - 1) 1).getD i 0 = 0
      rw [getD_set_other _ _ _ _ (Ne.symm hib), hcount]
      exact single_getD_other _ _ _ hia,
     fun h => absurd h (Nat.not_lt_zero _),
     fun _ => ⟨by
      show (s.count.set (B - 1) 1).getD (A - 1) 0 = n
      rw [getD_set_other _ _ _ _ (Ne.symm hab), hcount]
      exact single_getD_self _ _ (by omega), rfl, rfl⟩⟩
    (fun i t _ hp => preempt_step (A - 1) (B - 1) n s.wlength s.input (by omega) (by omega)
      hab (by omega) h0 h1 i t hp)
  obtain ⟨_, hrlen, hrb, hroth, hdone, _⟩ := hP
  obtain ⟨hra, hrw, hri⟩ := hdone (by omega)
  refine ⟨{ r with TCCR0 := 5, TCNT0 := 4 }, ?_, hrw, by rw [hri, hkc], ?_, hra, hrb, ?_⟩
  · unfold set_timer
    simp only
    rw [if_pos ⟨hB1, by omega⟩, hone, hr]
    rfl
  · show r.input.length = 11
    rw [hri, List.length_set, hil]
  · show r.count = (List.replicate 8 0).set (B - 1) 1
    apply List.ext_getElem (by simp [hrlen])
    intro i hi1 hi2
    rw [← List.getD_eq_getElem _ 0 hi1, ← List.getD_eq_getElem _ 0 hi2]
    by_cases hib : i = B - 1
    · subst hib; rw [hrb, single_getD_self _ _ (by omega)]
    · rw [single_getD_other _ _ _ hib]
      by_cases hia : i = A - 1
      · subst hia; exact hra
      · exact hroth i hia hib

/-- Key 1 pressed twice, then key 2 pressed once, commits `'b'` (98) at once. -/
theorem preempt_flush_witness :
    (1 ≤ 1 ∧ 1 ≤ 7 ∧ 1 ≤ 2 ∧ 2 ≤ 7 ∧ 1 ≠ 2 ∧ 1 ≤ 2 ∧ 2 ≤ 255 ∧
      ({ init with count := [2, 0, 0, 0, 0, 0, 0, 0] } : State).count =
        (List.replicate 8 0).set (1 - 1) 2 ∧
      ({ init with count := [2, 0, 0, 0, 0, 0, 0, 0] } : State).input.length = 11 ∧
      0 ≤ ({ init with count := [2, 0, 0, 0, 0, 0, 0, 0] } : State).wlength ∧
      ({ init with count := [2, 0, 0, 0, 0, 0, 0, 0] } : State).wlength ≤ 10) ∧
    ∃ s', set_timer { ({ init with count := [2, 0, 0, 0, 0, 0, 0, 0] } : State) with key := 2 } =
        some s' ∧
      s'.wlength = ({ init with count := [2, 0, 0, 0, 0, 0, 0, 0] } : State).wlength + 1 ∧
      s'.input = ({ init with count := [2, 0, 0, 0, 0, 0, 0, 0] } : State).input.set
        ({ init with count := [2, 0, 0, 0, 0, 0, 0, 0] } : State).wlength.toNat
        (tchar.getD (1 - 1) 0 + (2 - 1) % 4) ∧
      s'.input.length = 11 ∧
      s'.count.getD (1 - 1) 0 = 0 ∧ s'.count.getD (2 - 1) 0 = 1 ∧
      s'.count = (List.replicate 8 0).set (2 - 1) 1 :=
  ⟨by decide, preempt_flush 1 2 2 { init with count := [2, 0, 0, 0, 0, 0, 0, 0] }
    (by decide) (by decide) (by decide) (by decide) (by decide) (by decide) (by decide)
    rfl rfl (by decide) (by decide)⟩

theorem preempt_example :
    (run init [Event.press 1, Event.press 1, Event.press 2]).map
        (fun s => (s.wlength, s.input.getD 0 0, s.count)) =
      some (1, 98, [0, 1, 0, 0, 0, 0, 0, 0]) := by
  decide

/-! ### Backspace, capacity, empty delete -/

theorem step_overflow_stopped (s : State) (h : s.TCCR0 = 0) :
    step s Event.overflow = some s := by
  simp only [step, if_pos h]

theorem run_overflows_stopped (m : Nat) (s : State) (h : s.TCCR0 = 0) :
    run s (List.replicate m Event.overflow) = some s := by
  induction m with
  | zero => rfl
  | succ m ih =>
    rw [List.replicate_succ, run_cons, step_overflow_stopped s h, Option.some_bind, ih]

/-- After a backspace trigger the time-out commits nothing: with the timer running and
`d` overflows still to count, `d + 1` overflows resolve, and further ones are not
delivered. -/
theorem run_timeout_suppressed (d m : Nat) (t : State) (hrun : t.TCCR0 ≠ 0)
    (htc : t.timer_count + d = 3) (hbs : t.isBackspacePressed ≠ 0)
    (hlen : t.count.length = 8) :
    ∃ t', run t (List.replicate (d + 1 + m) Event.overflow) = some t' ∧
      t'.wlength = t.wlength ∧ t'.input = t.input ∧ t'.count = List.replicate 8 0 ∧
      t'.timer_count = 0 ∧ t'.isBackspacePressed = 0 ∧ t'.TCCR0 = 0 := by
  induction d generalizing t with
  | zero =>
    have e : 0 + 1 + m = m + 1 := by omega
    rw [e, List.replicate_succ, run_cons,
      step_overflow_suppressed t hrun (by omega) hbs hlen, Option.some_bind,
      run_overflows_stopped m _ rfl]
    exact ⟨_, rfl, rfl, rfl, rfl, rfl, rfl, rfl⟩
  | succ d ih =>
    have e : d + 1 + 1 + m = (d + 1 + m) + 1 := by omega
    rw [e, List.replicate_succ, run_cons, step_overflow_tick t hrun (by omega),
      Option.some_bind]
    obtain ⟨t', h1, h2, h3, h4, h5, h6, h7⟩ :=
      ih { t with TCNT0 := 4, timer_count := t.timer_count + 1 } hrun
        (by show t.timer_count + 1 + d = 3; omega) hbs hlen
    exact ⟨t', h1, h2, h3, h4, h5, h6, h7⟩

/-- C6: from a state with no key pending and a non-empty word buffer of length `L`,
three presses in a row of key 7 and then the time-out leave the word buffer equal
to its first `L - 1` characters: the last committed character is removed and no
character of the three-tap cycle is committed. -/
theorem backspace_removes_last (s : State) (hcount : s.count = List.replicate 8 0)
    (htc : s.timer_count < 4) (hw1 : 1 ≤ s.wlength) (hw2 : s.wlength ≤ 127) :
    ∃ s', run s (List.replicate 3 (Event.press 7) ++ List.replicate 4 Event.overflow) = some s' ∧
      s'.wlength = s.wlength - 1 ∧ s'.input = s.input ∧
      wordBuffer s' = (wordBuffer s).take (s.wlength.toNat - 1) ∧
      s'.count = List.replicate 8 0 ∧ s'.timer_count = 0 ∧ s'.isBackspacePressed = 0 := by
  obtain ⟨t, ht, hc, _, _, hwl, hin, htc', _, _⟩ := run_presses_seven s hcount 2 (Or.inr rfl)
  have hz : ∀ i, i ≠ 6 → t.count.getD i 0 = 0 := by
    intro i hi; rw [hc]; exact single_getD_other _ _ _ hi
  have hself : t.count.getD 6 0 = 2 := by rw [hc]; exact single_getD_self _ _ (by decide)
  have h3 := set_timer_backspace t (by rw [hc]; simp) hz (by rw [hself]; decide)
  have hwrap : wrapChar (t.wlength - 1) = s.wlength - 1 := by
    rw [hwl]; unfold wrapChar; omega
  have e : List.replicate 3 (Event.press 7) ++ List.replicate 4 Event.overflow =
      List.replicate 2 (Event.press 7) ++ (Event.press 7 :: List.replicate 4 Event.overflow) :=
    rfl
  have e4 : List.replicate 4 Event.overflow =
      List.replicate ((3 - s.timer_count) + 1 + s.timer_count) Event.overflow := by
    congr 1; omega
  rw [e, run_append, ht, Option.some_bind, run_cons]
  simp only [step]
  rw [if_pos (by decide), h3, Option.some_bind, e4]
  obtain ⟨t', h1, h2, h4, h5, h6, h7, _⟩ := run_timeout_suppressed (3 - s.timer_count)
    s.timer_count
    { t with key := 7,
             count := (t.count.set 6 (wrapUChar ((t.count.getD 6 0 : Int) + 1))).set 6 0,
             wlength := wrapChar (t.wlength - 1), isBackspacePressed := 1,
             TCCR0 := 5, TCNT0 := 4,
             lcd := t.lcd ++ [LcdOp.gotoxy t.wlength 0] ++
               [LcdOp.putc 32, LcdOp.gotoxy t.wlength 0] ++
               [LcdOp.gotoxy (wrapChar (t.wlength - 1)) 0] ++
               [LcdOp.putc 32, LcdOp.gotoxy (wrapChar (t.wlength - 1)) 0] }
    (by show (5 : Nat) ≠ 0; decide) (by show t.timer_count + (3 - s.timer_count) = 3; omega)
    (by show (1 : Int) ≠ 0; decide) (by simp [hc])
  refine ⟨t', h1, by rw [h2]; exact hwrap, by rw [h4]; exact hin, ?_, h5, h6, h7⟩
  unfold wordBuffer
  rw [h2, h4]
  show t.input.take (wrapChar (t.wlength - 1)).toNat = (s.input.take s.wlength.toNat).take _
  rw [hwrap, hin, List.take_take]
  congr 1
  omega

/-- The letter `'a'` typed, then key 7 three times and the time-out: the buffer is
empty again. -/
theorem backspace_removes_last_witness :
    (({ init with input := 97 :: List.replicate 10 0, wlength := 1 } : State).count =
        List.replicate 8 0 ∧
      ({ init with input := 97 :: List.replicate 10 0, wlength := 1 } : State).timer_count < 4 ∧
      1 ≤ ({ init with input := 97 :: List.replicate 10 0, wlength := 1 } : State).wlength ∧
      ({ init with input := 97 :: List.replicate 10 0, wlength := 1 } : State).wlength ≤ 127) ∧
    ∃ s', run { init with input := 97 :: List.replicate 10 0, wlength := 1 }
        (List.replicate 3 (Event.press 7) ++ List.replicate 4 Event.overflow) = some s' ∧
      s'.wlength =
        ({ init with input := 97 :: List.replicate 10 0, wlength := 1 } : State).wlength - 1 ∧
      s'.input = ({ init with input := 97 :: List.replicate 10 0, wlength := 1 } : State).input ∧
      wordBuffer s' =
        (wordBuffer { init with input := 97 :: List.replicate 10 0, wlength := 1 }).take
          (({ init with input := 97 :: List.replicate 10 0, wlength := 1 } : State).wlength.toNat
            - 1) ∧
      s'.count = List.replicate 8 0 ∧ s'.timer_count = 0 ∧ s'.isBackspacePressed = 0 :=
  ⟨by decide, backspace_removes_last { init with input := 97 :: List.replicate 10 0, wlength := 1 }
    rfl (by decide) (by decide) (by decide)⟩

/-- C7 (the code at the failing input): a commit through `transmit(c, 0)` with
`wlength = 10` is no no-op: the byte goes to `input[10]`, the slot kept for the
terminator, and `wlength` becomes 11; typing eleven letters from the initial state
gets there. -/
theorem capacity_overrun :
    (∀ (c : Nat) (s : State), s.wlength = 10 →
      ∃ s', transmit c 0 s = some s' ∧ s'.wlength = 11 ∧ s'.input = s.input.set 10 c) ∧
    (run init elevenA).map (fun s => (s.wlength, s.input)) = some (11, List.replicate 11 97) := by
  refine ⟨?_, by decide⟩
  intro c s h
  refine ⟨_, transmit_commit c s (by omega) (by omega), ?_, ?_⟩
  · show s.wlength + 1 = 11
    omega
  · show s.input.set s.wlength.toNat c = s.input.set 10 c
    rw [h]; rfl

/-- C8 (the code at the failing input): the third press in a row of key 7 with an
empty word buffer decrements `wlength` all the same: it becomes -1. -/
theorem empty_delete_underflow :
    init.wlength = 0 ∧
    (run init [Event.press 7, Event.press 7, Event.press 7]).map
        (fun s => (s.wlength, s.isBackspacePressed)) = some (-1, 1) ∧
    (run init ([Event.press 7, Event.press 7, Event.press 7] ++
        List.replicate 4 Event.overflow)).map (fun s => s.wlength) = some (-1) := by
  decide

/-- C9 (the code at the failing input): `matchCount` is never reset.  After "dog" was
submitted (two matches), the word "a" is typed and submitted: no dictionary word is a
permutation of it, and the submit renders only the clearing of the display, not the
no-match message. -/
theorem noMatch_not_rendered :
    anagrams (str "a") = [] ∧
    (run init (dogEvents ++ [Event.submit zeroStack zeroStack noTicks] ++ typeA)).map wordBuffer =
      some (str "a") ∧
    (run init (dogEvents ++ [Event.submit zeroStack zeroStack noTicks] ++ typeA)).bind
        (fun s => (step s (Event.submit zeroStack zeroStack noTicks)).map
          (fun s' => (s'.lcd.drop s.lcd.length, s'.matchCount))) =
      some ([LcdOp.clrscr], 2) := by
  decide

/-! ### At most one pending key -/

theorem foldlM_range_returns {α : Type} (f : α → Nat → Option α) (P : Nat → α → Prop)
    (n : Nat) (s : α) (h0 : P 0 s)
    (hstep : ∀ i t t', i < n → P i t → f t i = some t' → P (i + 1) t') :
    ∀ s', (List.range n).foldlM f s = some s' → P n s' := by
  induction n with
  | zero =>
    intro s' hr
    simp only [List.range_zero, List.foldlM_nil] at hr
    cases hr
    exact h0
  | succ n ih =>
    intro s' hr
    rw [List.range_succ, List.foldlM_append] at hr
    cases ht : (List.range n).foldlM f s with
    | none => rw [ht] at hr; simp at hr
    | some t =>
      rw [ht] at hr
      simp only [Option.bind_eq_bind, Option.some_bind, List.foldlM_cons, List.foldlM_nil] at hr
      cases ht' : f t n with
      | none => rw [ht'] at hr; simp at hr
      | some t' =>
        rw [ht'] at hr
        have hs : t' = s' := by simpa using hr
        rw [← hs]
        exact hstep n t t' (Nat.lt_succ_self n)
          (ih (fun i u u' hi => hstep i u u' (Nat.lt_succ_of_lt hi)) t ht) ht'

theorem transmit_frame (c : Nat) (p : Int) (s s' : State) (h : transmit c p s = some s') :
    s'.key = s.key ∧ s'.count = s.count ∧ s'.matchCount = s.matchCount := by
  unfold transmit at h
  simp only at h
  split at h
  · split at h
    · cases h; exact ⟨rfl, rfl, rfl⟩
    · cases h
  · cases h; exact ⟨rfl, rfl, rfl⟩

/-- What the loop body of `set_timer` does to `key` and `count[]`: only the entry `i`
and the entry of the pressed key can change, and the entry of another key is zero
afterwards. -/
theorem set_timer_body_count (t t' : State) (i : Nat) (h : set_timer_body t i = some t') :
    t'.key = t.key ∧ t'.count.length = t.count.length ∧
      (∀ j, j ≠ i → t'.count.getD j 0 = t.count.getD j 0) ∧
      (i ≠ t.key - 1 → i < t.count.length → t'.count.getD i 0 = 0) := by
  unfold set_timer_body at h
  split at h
  · rename_i hi
    split at h
    · simp only [Option.map_eq_some'] at h
      obtain ⟨t2, h2, rfl⟩ := h
      obtain ⟨hk, hc, _⟩ := transmit_frame _ _ _ _ h2
      simp only at hk hc
      refine ⟨hk, by simp [hc], ?_, ?_⟩
      · intro j hj
        show (t2.count.set i 0).getD j 0 = _
        rw [getD_set_other _ _ _ _ (Ne.symm hj), hc]
      · intro _ hlt
        show (t2.count.set i 0).getD i 0 = 0
        exact getD_set_self _ _ _ (by rw [hc]; exact hlt)
    · rename_i hz
      cases h
      exact ⟨rfl, rfl, fun _ _ => rfl, fun _ _ => not_not.1 hz⟩
  · rename_i hi
    have hi' : i = t.key - 1 := not_not.1 hi
    split at h
    · simp only [Option.bind_eq_some, Option.map_eq_some'] at h
      obtain ⟨t1, h1, t3, h3, rfl⟩ := h
      obtain ⟨hk1, hc1, _⟩ := transmit_frame _ _ _ _ h1
      obtain ⟨hk3, hc3, _⟩ := transmit_frame _ _ _ _ h3
      simp only at hk3 hc3
      refine ⟨by show t3.key = _; rw [hk3, hk1], by simp [hc3, hc1], ?_,
        fun h => absurd hi' h⟩
      intro j hj
      show (t3.count.set (t3.key - 1) 0).getD j 0 = _
      rw [hk3, hk1, ← hi', getD_set_other _ _ _ _ (Ne.symm hj), hc3, hc1]
    · simp only at h
      obtain ⟨hk, hc, _⟩ := transmit_frame _ _ _ _ h
      simp only at hk hc
      exact ⟨hk, by rw [hc], fun j _ => by rw [hc], fun h => absurd hi' h⟩

/-- After `set_timer` for key `k` only `count[k-1]` can be non-zero. -/
theorem set_timer_count (k : Nat) (s s' : State) (hlen : s.count.length = 8)
    (h : set_timer { s with key := k } = some s') :
    s'.count.length = 8 ∧ ∀ i, i ≠ k - 1 → s'.count.getD i 0 = 0 := by
  unfold set_timer at h
  simp only at h
  split at h
  · simp only [Option.map_eq_some'] at h
    obtain ⟨r, hr, rfl⟩ := h
    have hP := foldlM_range_returns set_timer_body
      (fun m t => t.key = k ∧ t.count.length = 8 ∧
        ∀ i, i < m → i ≠ k - 1 → t.count.getD i 0 = 0) 8 _
      ⟨rfl, by simp [hlen], fun i hi => absurd hi (Nat.not_lt_zero i)⟩
      (by
        intro i t t' hi hp ht
        obtain ⟨hk, hl, hz⟩ := hp
        obtain ⟨hk', hl', hsame, hzero⟩ := set_timer_body_count t t' i ht
        refine ⟨by rw [hk', hk], by rw [hl', hl], ?_⟩
        intro j hj hjk
        rcases Nat.lt_succ_iff_lt_or_eq.1 hj with hlt | heq
        · rw [hsame j (by omega)]; exact hz j hlt hjk
        · subst heq
          exact hzero (by rw [hk]; exact hjk) (by omega))
      r hr
    obtain ⟨_, hl, hz⟩ := hP
    refine ⟨hl, ?_⟩
    intro i hik
    show r.count.getD i 0 = 0
    by_cases hi : i < 8
    · exact hz i hi hik
    · exact List.getD_eq_default _ _ (by omega)
  · cases h

theorem atMostOne_of_single (c : List Nat) (j : Nat) (h : ∀ i, i ≠ j → c.getD i 0 = 0) :
    AtMostOne c := by
  intro a b ha hb
  have h1 : a = j := by by_contra hne; exact ha (h a hne)
  have h2 : b = j := by by_contra hne; exact hb (h b hne)
  rw [h1, h2]

theorem overflow_count (s s' : State) (hlen : s.count.length = 8)
    (h : SIG_OVERFLOW0 s = some s') :
    s'.count = s.count ∨ s'.count = List.replicate 8 0 := by
  unfold SIG_OVERFLOW0 at h
  split at h
  · right
    simp only [Option.map_eq_some'] at h
    obtain ⟨t, ht, rfl⟩ := h
    have hc : t.count = s.count := by
      split at ht
      · exact (transmit_frame _ _ _ _ ht).2.1
      · cases ht; rfl
    show resetCount t.count = _
    rw [hc, resetCount_eq _ hlen]
  · left
    cases h; rfl

theorem submit_count (g1 g2 : Nat → Nat → Nat) (s s' : State)
    (h : submit g1 g2 s = some s') : s'.count = s.count := by
  unfold submit at h
  simp only [Option.map_eq_some'] at h
  obtain ⟨t, ht, rfl⟩ := h
  have hc : t.count = s.count := by
    unfold submitLoop at ht
    split at ht
    · simp only at ht
      split at ht
      · cases ht
      · rename_i ih _
        refine foldlM_inv _ (fun u : State => u.count = s.count) _ ?_
          { s with input := s.input.set s.wlength.toNat 0 } _ rfl ht
        intro i u u' _ hu hb
        unfold submitBody at hb
        split at hb
        · split at hb
          · cases hb
          · split at hb
            · cases hb; exact hu
            · cases hb; exact hu
        · cases hb; exact hu
    · cases ht
  split <;> exact hc

/-- Overflow interrupts keep: `count[]` has its 8 entries and at most one is
non-zero. -/
theorem overflows_atMostOne (n : Nat) (s s' : State) (hlen : s.count.length = 8)
    (hone : AtMostOne s.count) (h : overflows n s = some s') :
    s'.count.length = 8 ∧ AtMostOne s'.count := by
  induction n generalizing s with
  | zero =>
    simp only [overflows] at h
    cases h
    exact ⟨hlen, hone⟩
  | succ n ih =>
    simp only [overflows] at h
    split at h
    · exact ih s hlen hone h
    · cases ht : SIG_OVERFLOW0 s with
      | none => rw [ht] at h; simp at h
      | some t =>
        rw [ht, Option.some_bind] at h
        rcases overflow_count s t hlen ht with hc | hc
        · exact ih t (by rw [hc]; exact hlen) (by rw [hc]; exact hone) h
        · exact ih t (by rw [hc]; simp)
            (by rw [hc]; exact fun i j hi _ => absurd (getD_replicate_zero i) hi) h

/-- The submit branch with interrupts keeps: `count[]` has its 8 entries and at most
one is non-zero. -/
theorem submitTicks_atMostOne (g1 g2 : Nat → Nat → Nat) (ticks : Nat → Nat) (s s' : State)
    (hlen : s.count.length = 8) (hone : AtMostOne s.count)
    (h : submitTicks g1 g2 ticks s = some s') :
    s'.count.length = 8 ∧ AtMostOne s'.count := by
  unfold submitTicks at h
  simp only [Option.bind_eq_some, Option.map_eq_some'] at h
  obtain ⟨t, ht, u, hu, rfl⟩ := h
  have hc : t.count.length = 8 ∧ AtMostOne t.count := by
    unfold submitLoopTicks at ht
    split at ht
    · simp only at ht
      split at ht
      · cases ht
      · refine foldlM_inv _ (fun v : State => v.count.length = 8 ∧ AtMostOne v.count) _ ?_
          { s with input := s.input.set s.wlength.toNat 0 } _ ⟨hlen, hone⟩ ht
        intro i v v' _ hv hb
        unfold submitBodyTicks at hb
        split at hb
        · split at hb
          · cases hb
          · split at hb
            · simp only [Option.map_eq_some'] at hb
              obtain ⟨v2, hv2, rfl⟩ := hb
              refine overflows_atMostOne _ _ v2 ?_ ?_ hv2
              · exact hv.1
              · exact hv.2
            · cases hb; exact hv
        · cases hb; exact hv
    · cases ht
  have hu' : u.count.length = 8 ∧ AtMostOne u.count := by
    split at hu
    · refine overflows_atMostOne _ _ u ?_ ?_ hu
      · exact hc.1
      · exact hc.2
    · refine overflows_atMostOne _ _ u ?_ ?_ hu
      · exact hc.1
      · exact hc.2
  exact hu'

/-- Every event keeps: `count[]` has its 8 entries and at most one is non-zero. -/
theorem step_atMostOne (s s' : State) (e : Event) (hlen : s.count.length = 8)
    (hone : AtMostOne s.count) (h : step s e = some s') :
    s'.count.length = 8 ∧ AtMostOne s'.count := by
  cases e with
  | press k =>
    simp only [step] at h
    split at h
    · obtain ⟨hl, hz⟩ := set_timer_count k s s' hlen h
      exact ⟨hl, atMostOne_of_single _ (k - 1) hz⟩
    · cases h; exact ⟨hlen, hone⟩
  | overflow =>
    simp only [step] at h
    split at h
    · cases h; exact ⟨hlen, hone⟩
    · rcases overflow_count s s' hlen h with hc | hc
      · rw [hc]; exact ⟨hlen, hone⟩
      · rw [hc]
        exact ⟨by simp, fun i j hi _ => absurd (getD_replicate_zero i) hi⟩
  | submit g1 g2 ticks =>
    simp only [step] at h
    exact submitTicks_atMostOne g1 g2 ticks s s' hlen hone h

/-- C10: in every state reached from the initial state by key presses, timer
overflows and submits, at most one entry of `count[]` is non-zero. -/
theorem count_at_most_one (es : List Event) (s : State) (h : run init es = some s) :
    s.count.length = 8 ∧ ∀ i j, s.count.getD i 0 ≠ 0 → s.count.getD j 0 ≠ 0 → i = j := by
  have key : ∀ (es : List Event) (s0 s : State), s0.count.length = 8 → AtMostOne s0.count →
      run s0 es = some s → s.count.length = 8 ∧ AtMostOne s.count := by
    intro es
    induction es with
    | nil =>
      intro s0 s hl ho hr
      rw [run_nil] at hr
      cases hr
      exact ⟨hl, ho⟩
    | cons e es ih =>
      intro s0 s hl ho hr
      rw [run_cons] at hr
      cases hs : step s0 e with
      | none => rw [hs] at hr; simp at hr
      | some s1 =>
        rw [hs, Option.some_bind] at hr
        obtain ⟨hl1, ho1⟩ := step_atMostOne s0 s1 e hl ho hs
        exact ih s1 s hl1 ho1 hr
  exact key es init s rfl (fun i j hi _ => absurd (getD_replicate_zero i) hi) h

/-- Key 1 pressed twice and key 2 once: only `count[1]` is non-zero afterwards. -/
theorem count_at_most_one_witness :
    run init [Event.press 1, Event.press 1, Event.press 2] = some afterPreempt ∧
      afterPreempt.count.length = 8 ∧
      ∀ i j, afterPreempt.count.getD i 0 ≠ 0 → afterPreempt.count.getD j 0 ≠ 0 → i = j :=
  ⟨by decide, count_at_most_one [Event.press 1, Event.press 1, Event.press 2] afterPreempt
    (by decide)⟩

/-! ## Theorems: clearing on submit, the hash table, the range of `hash` -/

/-- Whenever the submit branch returns, `wlength` is 0. -/
theorem submit_wlength (g1 g2 : Nat → Nat → Nat) (s s' : State)
    (h : submit g1 g2 s = some s') : s'.wlength = 0 := by
  unfold submit at h
  simp only [Option.map_eq_some'] at h
  obtain ⟨t, _, rfl⟩ := h
  split <;> rfl

/-- Submitting a word without a match (the empty word) leaves `wlength = 0` as well. -/
theorem submit_clears_noMatch :
    (submit zeroStack zeroStack init).map (fun s => (s.wlength, putsWords s.lcd)) =
      some (0, [noMatchMsg]) := by
  decide

/-- C16: the table `hashKey` has exactly 26 entries, one for each letter `'a'..'z'`
(the read `hashKey[c - 97]` is inside the table exactly for these bytes), and its
weights are all positive and pairwise distinct. -/
theorem hashKey_table :
    hashKey.length = 26 ∧ (∀ c, (hashKeyAt c).isSome ↔ isLower c) ∧
      (∀ x ∈ hashKey, 0 < x) ∧ hashKey.Nodup := by
  refine ⟨by decide, ?_, by decide, by decide⟩
  intro c
  unfold hashKeyAt isLower
  by_cases h : 97 ≤ c
  · rw [if_pos h]
    by_cases h2 : c ≤ 122
    · have hlt : c - 97 < hashKey.length := by
        have : hashKey.length = 26 := by decide
        omega
      rw [List.getElem?_eq_getElem hlt]
      simp [h, h2]
    · have hge : hashKey.length ≤ c - 97 := by
        have : hashKey.length = 26 := by decide
        omega
      rw [List.getElem?_eq_none hge]
      simp [h2]
  · rw [if_neg h]
    simp [h]

/-- C19: for a word of at most 10 lowercase letters, and for every dictionary word,
the sum that `hash` computes in the 16-bit `int` never leaves the range of `int`: every
running sum lies between 0 and 4970, and the result is the exact sum of the letter
weights. -/
theorem hash_no_overflow (w : List Nat) (hw : ∀ c ∈ w, isLower c) (hlen : w.length ≤ 10) :
    hash w = some ((w.map weight).sum) ∧ (w.map weight).sum ≤ 4970 ∧
      (∀ j, 0 ≤ ((w.take j).map weight).sum ∧ ((w.take j).map weight).sum ≤ 4970 ∧
        (w.take j).foldlM hashStep 0 = some (((w.take j).map weight).sum)) ∧
      ∀ d ∈ dict, hash d = some ((d.map weight).sum) ∧ (d.map weight).sum ≤ 4970 := by
  have key : ∀ v : List Nat, (∀ c ∈ v, isLower c) → v.length ≤ 10 →
      0 ≤ hashSum v ∧ hashSum v ≤ 4970 ∧ hash v = some (hashSum v) := by
    intro v hv hl
    have hb := hashSum_bounds v hv
    have hl' : (v.length : Int) ≤ 10 := by exact_mod_cast hl
    have hn : (0 : Int) ≤ (v.length : Int) := Int.ofNat_nonneg _
    refine ⟨by omega, by omega, ?_⟩
    rw [hash_lower v hv]
    congr 1
    unfold wrapInt16
    omega
  refine ⟨(key w hw hlen).2.2, (key w hw hlen).2.1, ?_, ?_⟩
  · intro j
    exact key (w.take j) (fun c hc => hw c (List.mem_of_mem_take hc))
      (by rw [List.length_take]; omega)
  · have hd : ∀ d ∈ dict, (∀ c ∈ d, isLower c) ∧ d.length ≤ 10 := by decide
    intro d hdm
    obtain ⟨h1, h2, h3⟩ := key d (hd d hdm).1 (hd d hdm).2
    exact ⟨h3, h2⟩

/-- The word "uuuuuuuuuu" reaches the bound 4970. -/
theorem hash_no_overflow_witness :
    ((∀ c ∈ List.replicate 10 117, isLower c) ∧ (List.replicate 10 117).length ≤ 10) ∧
      hash (List.replicate 10 117) = some 4970 ∧
      hash (List.replicate 10 117) = some (((List.replicate 10 117).map weight).sum) :=
  ⟨by decide, by decide,
   (hash_no_overflow (List.replicate 10 117) (by decide) (by decide)).1⟩

/-- C17 (the code at the failing input): `malloc(dictSize)` allocates 30 bytes where
the 30 entries need `dictSize * sizeof(int) = 60`; only the slots 0..14 lie inside the
block, the store to `dictHash[15]` is the first one outside it, so the start-up loop
as a whole has no defined result, while its first 15 rounds store the hashes of
the first 15 words. -/
theorem dictHash_allocation :
    dictHashBytes = 30 ∧ dictSize * sizeofInt = 60 ∧ dict.length = dictSize ∧
      (∀ i, i < dictSize → (slotInside dictHashBytes i ↔ i < 15)) ∧
      ¬ slotInside dictHashBytes 15 ∧
      buildDictHash dictHashBytes 15 = some (dictHash.take 15) ∧
      buildDictHash dictHashBytes dictSize = none ∧
      buildDictHash (dictSize * sizeofInt) dictSize = some dictHash := by
  decide

/-! ## Theorems: suppression and the idle counter -/

/-- After a backspace trigger the flag stays set until the next resolution: a letter
key pressed `n + 1` times after the trigger, from a state with no key pending and
`isBackspacePressed` set, and then left to time out, is not committed. -/
theorem letter_after_trigger_dropped (k n : Nat) (hk1 : 1 ≤ k) (hk6 : k ≤ 6) (s : State)
    (hcount : s.count = List.replicate 8 0) (hbs : s.isBackspacePressed ≠ 0)
    (htc : s.timer_count < 4) :
    ∃ s', run s (List.replicate (n + 1) (Event.press k) ++ List.replicate 4 Event.overflow) =
        some s' ∧ s'.wlength = s.wlength ∧ s'.input = s.input ∧
      s'.count = List.replicate 8 0 ∧ s'.isBackspacePressed = 0 := by
  obtain ⟨t, ht, hc, _, hrun, hwl, hin, htc', hb, _⟩ := run_presses_letter k hk1 hk6 s hcount n
  have e4 : List.replicate 4 Event.overflow =
      List.replicate ((3 - s.timer_count) + 1 + s.timer_count) Event.overflow := by
    congr 1; omega
  obtain ⟨t', h1, h2, h3, h4, _, h6, _⟩ := run_timeout_suppressed (3 - s.timer_count)
    s.timer_count t (by rw [hrun]; decide) (by rw [htc']; omega) (by rw [hb]; exact hbs)
    (by rw [hc]; simp)
  refine ⟨t', ?_, by rw [h2, hwl], by rw [h3, hin], h4, h6⟩
  rw [run_append, ht, Option.some_bind, e4, h1]

/-- C12 (the code at the failing input): the letter `'a'` is typed and deleted by
three presses of key 7; before any time-out key 1 is pressed `n` times (`n` = 1..4)
and left to time out.  The flag set by the trigger is still set, the resolution is
suppressed, and nothing is committed: the word buffer stays empty. -/
theorem suppression_outlives_delete_cycle :
    (run init typeAndDelete).map
        (fun s => (s.wlength, s.isBackspacePressed, s.count)) =
      some (0, 1, [0, 0, 0, 0, 0, 0, 0, 0]) ∧
    ∀ n, n ∈ [1, 2, 3, 4] →
      (run init (typeAndDelete ++ List.replicate n (Event.press 1) ++
          List.replicate 4 Event.overflow)).map
        (fun s => (wordBuffer s, s.count, s.TCCR0)) =
      some ([], [0, 0, 0, 0, 0, 0, 0, 0], 0) := by
  decide

/-- C13 (the code at the failing input): `set_timer` does not reset `timer_count`.
Key 1 is pressed, three overflows are counted, key 1 is pressed again: the very next
overflow resolves and commits `'b'`, one overflow after the last press and not
four. -/
theorem press_does_not_restart_count :
    (run init [Event.press 1, Event.overflow, Event.overflow, Event.overflow,
        Event.press 1]).map (fun s => (s.timer_count, s.count, wordBuffer s)) =
      some (3, [2, 0, 0, 0, 0, 0, 0, 0], []) ∧
    (run init [Event.press 1, Event.overflow, Event.overflow, Event.overflow,
        Event.press 1, Event.overflow]).map
        (fun s => (s.timer_count, s.count, wordBuffer s, s.TCCR0)) =
      some (0, [0, 0, 0, 0, 0, 0, 0, 0], [98], 0) := by
  decide

/-! ## Theorems: the resolution step and the provisional echo -/

/-- The character of key `k` for a count `c` in 1..255. -/
theorem keyChar_count (k c : Nat) (hk1 : 1 ≤ k) (hk7 : k ≤ 7) (hc1 : 1 ≤ c) (hc2 : c ≤ 255) :
    keyChar (k - 1) c = tchar.getD (k - 1) 0 + (c - 1) % 4 := by
  have h := keyChar_formula k c hk1 hk7 (by omega)
  rw [Nat.mod_eq_of_lt (by omega : c < 256)] at h
  exact h

/-- C14: from a state where one key `k` is accumulating (count `c`), the timer runs
and `timer_count = 0`, the first three overflows change only `timer_count` (1, 2, 3)
and commit nothing; the fourth resolves: it commits the pending character
`tchar[k-1] + ((c-1) mod 4)` unless suppressed, sets every `count[]` entry to 0,
sets `timer_count` to 0 and stops the timer (`TCCR0 = 0`). -/
theorem timeout_resolution (k c : Nat) (s : State) (hk1 : 1 ≤ k) (hk7 : k ≤ 7)
    (hc1 : 1 ≤ c) (hc2 : c ≤ 255) (hcount : s.count = (List.replicate 8 0).set (k - 1) c)
    (htc : s.timer_count = 0) (hrun : s.TCCR0 ≠ 0) (hT : s.TCNT0 = 4)
    (h0 : 0 ≤ s.wlength) (h1 : s.wlength ≤ 10) :
    step s Event.overflow = some { s with timer_count := 1 } ∧
    step { s with timer_count := 1 } Event.overflow = some { s with timer_count := 2 } ∧
    step { s with timer_count := 2 } Event.overflow = some { s with timer_count := 3 } ∧
    ∃ s4, step { s with timer_count := 3 } Event.overflow = some s4 ∧
      s4.count = List.replicate 8 0 ∧ s4.timer_count = 0 ∧ s4.TCCR0 = 0 ∧
      s4.isBackspacePressed = 0 ∧
      (s.isBackspacePressed = 0 →
        s4.wlength = s.wlength + 1 ∧
        s4.input = s.input.set s.wlength.toNat (tchar.getD (k - 1) 0 + (c - 1) % 4)) ∧
      (s.isBackspacePressed ≠ 0 → s4.wlength = s.wlength ∧ s4.input = s.input) := by
  have hlen : s.count.length = 8 := by rw [hcount]; simp
  have hres : resolveChar s.count s.character = tchar.getD (k - 1) 0 + (c - 1) % 4 := by
    rw [resolveChar_single s.count s.character (k - 1) (by omega)
      (by intro i hi; rw [hcount]; exact single_getD_other _ _ _ hi)]
    rw [hcount, single_getD_self _ _ (by omega), if_pos (by omega)]
    exact keyChar_count k c hk1 hk7 hc1 hc2
  have tick : ∀ j, j < 3 → step { s with timer_count := j } Event.overflow =
      some { s with timer_count := j + 1 } := by
    intro j hj
    rw [step_overflow_tick { s with timer_count := j } hrun hj]
    show some { s with TCNT0 := 4, timer_count := j + 1 } = _
    rw [← hT]
  refine ⟨?_, tick 1 (by decide), tick 2 (by decide), ?_⟩
  · rw [step_overflow_tick s hrun (by omega)]
    show some { s with TCNT0 := 4, timer_count := s.timer_count + 1 } = _
    rw [htc, ← hT]
  · by_cases hbs : s.isBackspacePressed = 0
    · refine ⟨_, step_overflow_commit { s with timer_count := 3 } hrun rfl hbs h0
        (by show s.wlength < 11; omega) hlen, rfl, rfl, rfl, hbs, ?_, fun h => absurd hbs h⟩
      intro _
      refine ⟨rfl, ?_⟩
      show s.input.set s.wlength.toNat (resolveChar s.count s.character) = _
      rw [hres]
    · exact ⟨_, step_overflow_suppressed { s with timer_count := 3 } hrun rfl hbs hlen,
        rfl, rfl, rfl, rfl, fun h => absurd h hbs, fun _ => ⟨rfl, rfl⟩⟩

/-- Key 1 pressed twice from the initial state, then four overflows: `'b'`. -/
theorem timeout_resolution_witness :
    (1 ≤ 1 ∧ 1 ≤ 7 ∧ 1 ≤ 2 ∧ 2 ≤ 255 ∧
      ({ init with count := [2, 0, 0, 0, 0, 0, 0, 0], TCCR0 := 5, TCNT0 := 4 } : State).count =
        (List.replicate 8 0).set (1 - 1) 2 ∧
      ({ init with count := [2, 0, 0, 0, 0, 0, 0, 0], TCCR0 := 5, TCNT0 := 4 } :
        State).timer_count = 0 ∧
      ({ init with count := [2, 0, 0, 0, 0, 0, 0, 0], TCCR0 := 5, TCNT0 := 4 } : State).TCCR0 ≠ 0 ∧
      ({ init with count := [2, 0, 0, 0, 0, 0, 0, 0], TCCR0 := 5, TCNT0 := 4 } : State).TCNT0 = 4 ∧
      0 ≤ ({ init with count := [2, 0, 0, 0, 0, 0, 0, 0], TCCR0 := 5, TCNT0 := 4 } :
        State).wlength ∧
      ({ init with count := [2, 0, 0, 0, 0, 0, 0, 0], TCCR0 := 5, TCNT0 := 4 } :
        State).wlength ≤ 10) ∧
    step { init with count := [2, 0, 0, 0, 0, 0, 0, 0], TCCR0 := 5, TCNT0 := 4 } Event.overflow =
      some { ({ init with count := [2, 0, 0, 0, 0, 0, 0, 0], TCCR0 := 5, TCNT0 := 4 } : State)
        with timer_count := 1 } :=
  ⟨by decide,
   (timeout_resolution 1 2 { init with count := [2, 0, 0, 0, 0, 0, 0, 0], TCCR0 := 5, TCNT0 := 4 }
     (by decide) (by decide) (by decide) (by decide) rfl rfl (by decide) rfl (by decide)
     (by decide)).1⟩

/-- Below the top of the `unsigned char`: in a state where no other key has a non-zero
tap count, a press of key `k` that is not a backspace trigger, with `count[k-1]` below
255, leaves `wlength` and `input[]` unchanged and increases `count[k-1]` by exactly 1;
the other counts stay zero. -/
theorem echo_does_not_commit (k : Nat) (s : State) (hk1 : 1 ≤ k) (hk7 : k ≤ 7)
    (hlen : s.count.length = 8) (hz : ∀ i, i ≠ k - 1 → s.count.getD i 0 = 0)
    (hc : s.count.getD (k - 1) 0 < 255)
    (hbs : k ≠ 7 ∨ (k = 7 ∧ (s.count.getD (k - 1) 0 + 1) % 3 ≠ 0)) :
    ∃ s', set_timer { s with key := k } = some s' ∧
      s'.wlength = s.wlength ∧ s'.input = s.input ∧ wordBuffer s' = wordBuffer s ∧
      s'.count.getD (k - 1) 0 = s.count.getD (k - 1) 0 + 1 ∧
      (∀ i, i ≠ k - 1 → s'.count.getD i 0 = 0) ∧
      s'.character = tchar.getD (k - 1) 0 + s.count.getD (k - 1) 0 % 4 := by
  have hw : wrapUChar ((s.count.getD (k - 1) 0 : Int) + 1) = s.count.getD (k - 1) 0 + 1 := by
    rw [wrapUChar_succ]; exact Nat.mod_eq_of_lt (by omega)
  have h := set_timer_same k hk1 hk7 s hlen hz (by
    rw [hw]
    rintro ⟨h7, h3⟩
    rcases hbs with h | ⟨_, h⟩
    · exact h h7
    · exact h h3)
  rw [hw] at h
  refine ⟨_, h, rfl, rfl, rfl, ?_, ?_, ?_⟩
  · exact getD_set_self _ _ _ (by omega)
  · intro i hi
    show (s.count.set (k - 1) _).getD i 0 = 0
    rw [getD_set_other _ _ _ _ (Ne.symm hi)]
    exact hz i hi
  · show keyChar (k - 1) (s.count.getD (k - 1) 0 + 1) = _
    rw [keyChar_count k _ hk1 hk7 (by omega) (by omega)]
    rfl

/-- The first press of key 3 from the initial state echoes `'i'` and commits nothing. -/
theorem echo_does_not_commit_witness :
    (1 ≤ 3 ∧ 3 ≤ 7 ∧ init.count.length = 8 ∧ (∀ i, i ≠ 3 - 1 → init.count.getD i 0 = 0) ∧
      init.count.getD (3 - 1) 0 < 255 ∧
      (3 ≠ 7 ∨ (3 = 7 ∧ (init.count.getD (3 - 1) 0 + 1) % 3 ≠ 0))) ∧
    ∃ s', set_timer { init with key := 3 } = some s' ∧
      s'.wlength = init.wlength ∧ s'.input = init.input ∧ wordBuffer s' = wordBuffer init ∧
      s'.count.getD (3 - 1) 0 = init.count.getD (3 - 1) 0 + 1 ∧
      (∀ i, i ≠ 3 - 1 → s'.count.getD i 0 = 0) ∧
      s'.character = tchar.getD (3 - 1) 0 + init.count.getD (3 - 1) 0 % 4 :=
  ⟨⟨by decide, by decide, by decide, fun i _ => getD_replicate_zero i, by decide, by decide⟩,
   echo_does_not_commit 3 init (by decide) (by decide) (by decide)
     (fun i _ => getD_replicate_zero i) (by decide) (by decide)⟩

/-- C15 (the code at the failing input): after 255 presses in a row of key 1 (no
other key pending, no backspace trigger) `count[0]` is 255, the top of the
`unsigned char`, and the next press does not increase it by 1 but wraps it to 0 and
echoes byte 96; `wlength` and `input[]` stay as they were. -/
theorem echo_wraps_counterexample :
    (∃ t, run init (List.replicate 255 (Event.press 1)) = some t ∧ t.count = fullCount.count ∧
      t.wlength = fullCount.wlength ∧ t.input = fullCount.input) ∧
    fullCount.count.getD (1 - 1) 0 = 255 ∧ (1 : Nat) ≠ 7 ∧
    (set_timer { fullCount with key := 1 }).map (fun s => s.count.getD (1 - 1) 0) = some 0 ∧
    fullCount.count.getD (1 - 1) 0 + 1 ≠ 0 ∧
    (set_timer { fullCount with key := 1 }).map
        (fun s => (s.character, s.wlength, s.input)) =
      some (96, fullCount.wlength, fullCount.input) := by
  refine ⟨?_, by decide, by decide, by decide, by decide, by decide⟩
  obtain ⟨t, ht, hc, _, _, hwl, hin, _⟩ :=
    run_presses_letter 1 (by decide) (by decide) init rfl 254
  exact ⟨t, ht, hc, hwl, hin⟩

/-! ## Theorems: committed characters, submit while a key is pending -/

/-- C18 (the code at the failing input): key 1 pressed 256 times in a row wraps
`count[0]` to 0; the time-out then commits the byte 96, which is no lowercase letter,
`hashKey[96 - 97]` lies outside the table, and a submit of this buffer has no
defined result. -/
theorem nonletter_committed :
    ∃ s, run init (List.replicate 256 (Event.press 1) ++ List.replicate 4 Event.overflow) =
        some s ∧
      wordBuffer s = [96] ∧ ¬ isLower 96 ∧ hashKeyAt 96 = none ∧ hash (wordBuffer s) = none ∧
      submit zeroStack zeroStack s = none := by
  obtain ⟨t, ht, hp⟩ := run_presses_letter 1 (by decide) (by decide) init rfl 255
  obtain ⟨t', hr, hw, hi, _⟩ := run_timeout_pending 1 ((255 + 1) % 256) (by decide) (by decide)
    init t hp rfl rfl (by decide) (by decide)
  have hwb : wordBuffer t' = [96] := by
    unfold wordBuffer; rw [hw, hi]; decide
  refine ⟨t', ?_, hwb, by decide, by decide, by rw [hwb]; decide, ?_⟩
  · rw [run_append, ht, Option.some_bind, hr]
  · have hh : hash (cstr (t'.input.set t'.wlength.toNat 0)) = none := by
      rw [hi, hw]; decide
    unfold submit submitLoop
    rw [if_pos (by rw [hw]; decide)]
    simp only [hh, Option.map_none']

/-- What the submit branch leaves as it was, and what it stores. -/
theorem submit_frame (g1 g2 : Nat → Nat → Nat) (s s' : State)
    (h : submit g1 g2 s = some s') :
    s'.count = s.count ∧ s'.TCCR0 = s.TCCR0 ∧ s'.timer_count = s.timer_count ∧
      s'.isBackspacePressed = s.isBackspacePressed ∧ s'.character = s.character ∧
      s'.input = s.input.set s.wlength.toNat 0 := by
  unfold submit at h
  simp only [Option.map_eq_some'] at h
  obtain ⟨t, ht, rfl⟩ := h
  have hc : t.count = s.count ∧ t.TCCR0 = s.TCCR0 ∧ t.timer_count = s.timer_count ∧
      t.isBackspacePressed = s.isBackspacePressed ∧ t.character = s.character ∧
      t.input = s.input.set s.wlength.toNat 0 := by
    unfold submitLoop at ht
    split at ht
    · simp only at ht
      split at ht
      · cases ht
      · refine foldlM_inv _ (fun u : State => u.count = s.count ∧ u.TCCR0 = s.TCCR0 ∧
            u.timer_count = s.timer_count ∧ u.isBackspacePressed = s.isBackspacePressed ∧
            u.character = s.character ∧ u.input = s.input.set s.wlength.toNat 0) _ ?_
          { s with input := s.input.set s.wlength.toNat 0 } _ ⟨rfl, rfl, rfl, rfl, rfl, rfl⟩ ht
        intro i u u' _ hu hb
        unfold submitBody at hb
        split at hb
        · split at hb
          · cases hb
          · split at hb
            · cases hb; exact hu
            · cases hb; exact hu
        · cases hb; exact hu
    · cases ht
  split <;> exact hc

/-- The time-out with no suppression: with the timer running and `d` overflows still
to count, `d + 1` overflows commit the character and reset the machine, and further
ones are not delivered. -/
theorem run_timeout_commit (d m : Nat) (t : State) (hrun : t.TCCR0 ≠ 0)
    (htc : t.timer_count + d = 3) (hbs : t.isBackspacePressed = 0)
    (h0 : 0 ≤ t.wlength) (h1 : t.wlength ≤ 10) (hlen : t.count.length = 8) :
    ∃ t', run t (List.replicate (d + 1 + m) Event.overflow) = some t' ∧
      t'.wlength = t.wlength + 1 ∧
      t'.input = t.input.set t.wlength.toNat (resolveChar t.count t.character) ∧
      t'.count = List.replicate 8 0 ∧ t'.timer_count = 0 ∧ t'.isBackspacePressed = 0 ∧
      t'.TCCR0 = 0 := by
  induction d generalizing t with
  | zero =>
    have e : 0 + 1 + m = m + 1 := by omega
    rw [e, List.replicate_succ, run_cons,
      step_overflow_commit t hrun (by omega) hbs h0 (by omega) hlen, Option.some_bind,
      run_overflows_stopped m _ rfl]
    exact ⟨_, rfl, rfl, rfl, rfl, rfl, hbs, rfl⟩
  | succ d ih =>
    have e : d + 1 + 1 + m = (d + 1 + m) + 1 := by omega
    rw [e, List.replicate_succ, run_cons, step_overflow_tick t hrun (by omega),
      Option.some_bind]
    obtain ⟨t', a1, a2, a3, a4, a5, a6, a7⟩ :=
      ih { t with TCNT0 := 4, timer_count := t.timer_count + 1 } hrun
        (by show t.timer_count + 1 + d = 3; omega) hbs h0 h1 hlen
    exact ⟨t', a1, a2, a3, a4, a5, a6, a7⟩

/-- When no overflow arrives inside the submit branch and no suppression is pending: a
submit made while a key `k` is accumulating (count `c`, its character only echoed)
matches on the committed characters alone and leaves `count[]` unchanged; a time-out
resolution after the branch commits the pending character
`tchar[k-1] + ((c-1) mod 4)` as the first character (`wlength = 1`) of the cleared
word buffer. -/
theorem submit_keeps_pending (g1 g2 : Nat → Nat → Nat) (k c : Nat) (s : State) (w : List Nat)
    (hk1 : 1 ≤ k) (hk7 : k ≤ 7) (hc1 : 1 ≤ c) (hc2 : c ≤ 255)
    (hcount : s.count = (List.replicate 8 0).set (k - 1) c) (hrun : s.TCCR0 ≠ 0)
    (htc : s.timer_count < 4) (hbs : s.isBackspacePressed = 0)
    (hw : ∀ x ∈ w, isLower x) (hlen : w.length ≤ 10) (hwl : s.wlength = w.length)
    (hil : s.input.length = 11) (hin : s.input.take w.length = w) :
    ∃ s1 s2, submit g1 g2 s = some s1 ∧
      s1.lcd = s.lcd ++ reportOps (anagrams w) ++
        (if s1.matchCount = 0 then [LcdOp.gotoxy 0 1, LcdOp.puts noMatchMsg] else []) ++
        [LcdOp.clrscr] ∧
      s1.count = s.count ∧ s1.wlength = 0 ∧
      run s1 (List.replicate 4 Event.overflow) = some s2 ∧
      s2.wlength = 1 ∧ wordBuffer s2 = [tchar.getD (k - 1) 0 + (c - 1) % 4] ∧
      s2.count = List.replicate 8 0 := by
  have hsub : ∃ s1, submit g1 g2 s = some s1 ∧
      s1.lcd = s.lcd ++ reportOps (anagrams w) ++
        (if s1.matchCount = 0 then [LcdOp.gotoxy 0 1, LcdOp.puts noMatchMsg] else []) ++
        [LcdOp.clrscr] := by
    obtain ⟨t, hloop, h2⟩ := submitLoop_reports g1 g2 s w hw hlen hwl hil hin
    unfold submit
    rw [hloop]
    refine ⟨_, rfl, ?_⟩
    by_cases hm : t.matchCount = 0
    · simp [hm, h2]
    · simp [hm, h2]
  obtain ⟨s1, hs1, hlcd⟩ := hsub
  obtain ⟨fc, fr, ft, fb, _, fi⟩ := submit_frame g1 g2 s s1 hs1
  have fw := submit_wlength g1 g2 s s1 hs1
  have e4 : List.replicate 4 Event.overflow =
      List.replicate ((3 - s1.timer_count) + 1 + s1.timer_count) Event.overflow := by
    congr 1; rw [ft]; omega
  obtain ⟨s2, a1, a2, a3, a4, _⟩ := run_timeout_commit (3 - s1.timer_count) s1.timer_count s1
    (by rw [fr]; exact hrun) (by rw [ft]; omega) (by rw [fb]; exact hbs)
    (by rw [fw]) (by rw [fw]; decide) (by rw [fc, hcount]; simp)
  have hres : resolveChar s1.count s1.character = tchar.getD (k - 1) 0 + (c - 1) % 4 := by
    rw [fc, resolveChar_single s.count s1.character (k - 1) (by omega)
      (by intro i hi; rw [hcount]; exact single_getD_other _ _ _ hi)]
    rw [hcount, single_getD_self _ _ (by omega), if_pos (by omega)]
    exact keyChar_count k c hk1 hk7 hc1 hc2
  refine ⟨s1, s2, hs1, hlcd, fc, fw, by rw [e4]; exact a1, by rw [a2, fw]; rfl, ?_, a4⟩
  unfold wordBuffer
  rw [a2, a3, fw, hres, fi]
  have hl : 0 < (s.input.set s.wlength.toNat 0).length := by
    rw [List.length_set, hil]; decide
  generalize s.input.set s.wlength.toNat 0 = l at hl
  cases l with
  | nil => exact absurd hl (by decide)
  | cons x xs => rfl

/-- With "do" committed and `'g'` pending on key 2, submit matches on "do" only (no
dictionary word is a permutation of it), and the time-out then commits `'g'` as the
first character of the cleared buffer. -/
theorem submit_keeps_pending_witness :
    (1 ≤ 2 ∧ 2 ≤ 7 ∧ 1 ≤ 3 ∧ 3 ≤ 255 ∧
      dogPending.count = (List.replicate 8 0).set (2 - 1) 3 ∧ dogPending.TCCR0 ≠ 0 ∧
      dogPending.timer_count < 4 ∧ dogPending.isBackspacePressed = 0 ∧
      (∀ x ∈ str "do", isLower x) ∧ (str "do").length ≤ 10 ∧
      dogPending.wlength = (str "do").length ∧ dogPending.input.length = 11 ∧
      dogPending.input.take (str "do").length = str "do") ∧
    anagrams (str "do") = [] ∧ tchar.getD (2 - 1) 0 + (3 - 1) % 4 = 103 ∧
    ∃ s1 s2, submit zeroStack zeroStack dogPending = some s1 ∧
      s1.lcd = dogPending.lcd ++ reportOps (anagrams (str "do")) ++
        (if s1.matchCount = 0 then [LcdOp.gotoxy 0 1, LcdOp.puts noMatchMsg] else []) ++
        [LcdOp.clrscr] ∧
      s1.count = dogPending.count ∧ s1.wlength = 0 ∧
      run s1 (List.replicate 4 Event.overflow) = some s2 ∧
      s2.wlength = 1 ∧ wordBuffer s2 = [tchar.getD (2 - 1) 0 + (3 - 1) % 4] ∧
      s2.count = List.replicate 8 0 :=
  ⟨by decide, by decide, by decide,
   submit_keeps_pending zeroStack zeroStack 2 3 dogPending (str "do") (by decide) (by decide)
     (by decide) (by decide) (by decide) (by decide) (by decide) (by decide) (by decide)
     (by decide) (by decide) (by decide) (by decide)⟩

/-- While the flag of an earlier backspace trigger is still set the pending character
is lost as well: `'a'` is typed and deleted, key 1 is pressed (count 1, `'a'` echoed),
submit is made, and the time-out that follows commits nothing: `wlength` stays 0. -/
theorem submit_pending_suppressed_counterexample :
    (run init (typeAndDelete ++ [Event.press 1])).map
        (fun s => (s.count, s.isBackspacePressed, wordBuffer s)) =
      some ([1, 0, 0, 0, 0, 0, 0, 0], 1, []) ∧
    (run init (typeAndDelete ++ [Event.press 1, Event.submit zeroStack zeroStack noTicks])).map
        (fun s => (s.count, s.wlength)) = some ([1, 0, 0, 0, 0, 0, 0, 0], 0) ∧
    (run init (typeAndDelete ++ [Event.press 1, Event.submit zeroStack zeroStack noTicks] ++
        List.replicate 4 Event.overflow)).map
        (fun s => (s.count, s.wlength, s.TCCR0)) = some ([0, 0, 0, 0, 0, 0, 0, 0], 0, 0) := by
  decide

/-! ## Theorems: overflows inside the submit branch -/

theorem overflows_stopped (n : Nat) (s : State) (h : s.TCCR0 = 0) :
    overflows n s = some s := by
  induction n with
  | zero => rfl
  | succ n ih =>
    simp only [overflows]
    rw [if_pos h, Option.some_bind, ih]

theorem foldlM_congr_inv {α β : Type} (f g : α → β → Option α) (P : α → Prop) (l : List β)
    (hfg : ∀ t x, x ∈ l → P t → f t x = g t x)
    (hP : ∀ t t' x, x ∈ l → P t → g t x = some t' → P t') (s : α) (h0 : P s) :
    l.foldlM f s = l.foldlM g s := by
  induction l generalizing s with
  | nil => rfl
  | cons x xs ih =>
    simp only [List.foldlM_cons, Option.bind_eq_bind]
    rw [hfg s x (List.mem_cons_self _ _) h0]
    cases hg : g s x with
    | none => rfl
    | some t =>
      simp only [Option.some_bind]
      exact ih (fun u y hy => hfg u y (List.mem_cons_of_mem _ hy))
        (fun u u' y hy => hP u u' y (List.mem_cons_of_mem _ hy)) t
        (hP s t x (List.mem_cons_self _ _) h0 hg)

/-- With the timer stopped and the terminator in the buffer, a round of the
dictionary loop with interrupts is the round of the sequential code. -/
theorem submitBodyTicks_stopped (g1 g2 : Nat → Nat → Nat) (ticks : Nat → Nat) (ih : Int)
    (t : State) (i : Nat) (hT : t.TCCR0 = 0) (h0 : 0 ∈ t.input) :
    submitBodyTicks g1 g2 ticks ih t i = submitBody g1 g2 ih t i := by
  unfold submitBodyTicks submitBody cstrIn
  rw [if_pos h0, Option.some_bind]
  split
  · cases isPerm (g1 i) (g2 i) (cstr t.input) (dict.getD i []) with
    | none => rfl
    | some r =>
      simp only
      split
      · rw [overflows_stopped _ _ (by exact hT)]
        rfl
      · rfl
  · rfl

theorem submitBody_keeps (g1 g2 : Nat → Nat → Nat) (ih : Int) (t t' : State) (i : Nat)
    (h : submitBody g1 g2 ih t i = some t') : t'.TCCR0 = t.TCCR0 ∧ t'.input = t.input := by
  unfold submitBody at h
  split at h
  · split at h
    · cases h
    · split at h
      · cases h; exact ⟨rfl, rfl⟩
      · cases h; exact ⟨rfl, rfl⟩
  · cases h; exact ⟨rfl, rfl⟩

/-- While the timer is stopped no overflow arrives: the submit branch with interrupts
is the sequential branch, whatever `ticks` says. -/
theorem submitTicks_stopped (g1 g2 : Nat → Nat → Nat) (ticks : Nat → Nat) (s : State)
    (hT : s.TCCR0 = 0) (hil : s.input.length = 11) :
    submitTicks g1 g2 ticks s = submit g1 g2 s := by
  have hloop : submitLoopTicks g1 g2 ticks s = submitLoop g1 g2 s := by
    unfold submitLoopTicks submitLoop
    split
    · rename_i hw
      simp only
      cases hash (cstr (s.input.set s.wlength.toNat 0)) with
      | none => rfl
      | some ih =>
        simp only
        refine foldlM_congr_inv _ _ (fun t : State => t.TCCR0 = 0 ∧ 0 ∈ t.input) _ ?_ ?_ _
          ⟨hT, ?_⟩
        · intro t i _ ht
          exact submitBodyTicks_stopped g1 g2 ticks ih t i ht.1 ht.2
        · intro t t' i _ ht hb
          obtain ⟨a, b⟩ := submitBody_keeps g1 g2 ih t t' i hb
          exact ⟨by rw [a]; exact ht.1, by rw [b]; exact ht.2⟩
        · show 0 ∈ s.input.set s.wlength.toNat 0
          have hlt : s.wlength.toNat < s.input.length := by rw [hil]; omega
          exact List.mem_iff_getElem.2
            ⟨s.wlength.toNat, by rw [List.length_set]; exact hlt, by simp⟩
    · rfl
  unfold submitTicks
  rw [hloop]
  cases hs : submitLoop g1 g2 s with
  | none => unfold submit; rw [hs]; rfl
  | some s2 =>
    have hs2 : s2.TCCR0 = 0 := by
      unfold submitLoop at hs
      split at hs
      · simp only at hs
        split at hs
        · cases hs
        · refine foldlM_inv _ (fun u : State => u.TCCR0 = 0) _ ?_
            { s with input := s.input.set s.wlength.toNat 0 } _ hT hs
          intro i u u' _ hu hb
          rw [(submitBody_keeps g1 g2 _ u u' i hb).1]
          exact hu
      · cases hs
    unfold submit
    rw [hs, Option.some_bind, Option.map_some']
    simp only
    by_cases hm : s2.matchCount = 0
    · simp only [hm, if_true]
      rw [overflows_stopped _ _ (by exact hs2)]
      rfl
    · simp only [hm, if_false]
      rw [overflows_stopped _ _ (by exact hs2)]
      rfl

set_option maxRecDepth 100000 in
/-- C20 (the code at the failing input): "dog" is committed, key 1 is pressed (`'a'`
echoed, pending) and three overflows are counted; submit is made, and one overflow
arrives during the wait after the first reported word "god".  The handler resolves
inside the branch: `'a'` is stored over the terminator and `wlength` becomes 4, the
next candidate "dog" is compared with "doga" and is not reported, and `wlength = 0`
then drops the `'a'`.  Nothing is pending afterwards and no later time-out commits
it. -/
theorem submit_drops_pending :
    (run init dogThenA).map
        (fun s => (wordBuffer s, s.count, s.timer_count, s.isBackspacePressed, s.TCCR0)) =
      some (str "dog", [1, 0, 0, 0, 0, 0, 0, 0], 3, 0, 5) ∧
    anagrams (str "dog") = [str "god", str "dog"] ∧
    (run init (dogThenA ++ [Event.submit zeroStack zeroStack tickAfterFirstWord])).map
        (fun s => (putsWords s.lcd, s.wlength, s.count, s.TCCR0)) =
      some ([str "god"], 0, [0, 0, 0, 0, 0, 0, 0, 0], 0) ∧
    (run init (dogThenA ++ [Event.submit zeroStack zeroStack tickAfterFirstWord] ++
        List.replicate 4 Event.overflow)).map (fun s => (s.wlength, wordBuffer s)) =
      some (0, []) := by
  decide

set_option maxRecDepth 100000 in
/-- The same keys with no overflow inside the branch: both anagrams are reported, and
the overflow after the branch commits `'a'` as the first character. -/
theorem submit_then_timeout_commits :
    (run init (dogThenA ++ [Event.submit zeroStack zeroStack noTicks, Event.overflow])).map
        (fun s => (putsWords s.lcd, wordBuffer s, s.count)) =
      some ([str "god", str "dog"], [97], [0, 0, 0, 0, 0, 0, 0, 0]) := by
  decide

set_option maxRecDepth 100000 in
/-- The same keys with the overflow arriving in the closing wait of the branch: both
anagrams are reported and `'a'` is committed as the first character. -/
theorem submit_closing_wait_commits :
    (run init (dogThenA ++
        [Event.submit zeroStack zeroStack (fun i => if i = dictSize then 1 else 0)])).map
        (fun s => (putsWords s.lcd, wordBuffer s, s.count)) =
      some ([str "god", str "dog"], [97], [0, 0, 0, 0, 0, 0, 0, 0]) := by
  decide

end Switchkeys
